import Mathlib

/-!
Verification development for the gosln repository (a Semantic Link Network
data-modeling layer in Go).

This file shallowly embeds the core of the source code:
  * `type_and_id.go`: type-name validation, the ID serial encoding, ID
    formatting;
  * `date.go`: the `Date` value object and its string form;
  * `prop_map.go`: the property map, `PropMapGet`, and the
    mutually-exclusive property map;
  * the property-name validation and mutually-exclusive name set
    (`IsValidPropNameString`, `mutExclPropNameSet`);
  * `valid_set_and_map.go`: the generic validated set and map;
  * `match_cond.go`: `PropMatchClause.Match`, `NodeMatchClause.Match` and
    `NodeMatchCond.Match`.

Conventions of the embedding:
  * Go strings checked byte-by-byte (the validity predicates) are embedded
    as lists of byte values (`List Nat`); strings used only as opaque
    identifiers stay `String`.
  * A Go panic is modelled as `Option.none` (for constructors) or as an
    explicit fault component of the result (for collection operations).
  * Go maps are embedded as association lists with unique keys kept by
    construction; Go map iteration order is unspecified, and every
    statement proved here is independent of the chosen list order.
  * Go `int64` / `int` values are embedded as `Int`.
-/

/-! ### Property names and types (source: `Type`, `PropName`) -/

/-- Source `PropName` (`part_005`): a struct wrapping the name string.
`IsValid` reports that the wrapped string is non-empty (the constructor
guarantees a non-zero `PropName` is well-formed). -/
structure PropName where
  name : String
deriving DecidableEq, Repr

def PropName.IsValid (pn : PropName) : Bool :=
  pn.name != ""

/-- Source `Type` (`type_and_id.go`); named `GoType` here because `Type` is
a Lean keyword. A struct wrapping the type string. -/
structure GoType where
  t : String
deriving DecidableEq, Repr

/-- Source `Type.String`: returns the wrapped value. -/
def GoType.str (t : GoType) : String :=
  t.t

/-- Source `Type.IsValid`: valid iff the wrapped string is non-empty. -/
def GoType.IsValid (t : GoType) : Bool :=
  t.t != ""

/-! ### Date (source: `date.go`) -/

/-- Source `Date`: the year (CE) and the day within the year, both Go
`int`. -/
structure Date where
  year : Int
  yearDay : Int
deriving DecidableEq, Repr

/-- Decimal digit characters of a natural number, most significant first
(the digits of Go's `%d` for a non-negative value). -/
def natDigits (n : Nat) : List Char :=
  if h : n < 10 then [Char.ofNat (48 + n)]
  else natDigits (n / 10) ++ [Char.ofNat (48 + n % 10)]
decreasing_by
  exact Nat.div_lt_self (by omega) (by omega)

/-- Go `fmt` verb `%d` on an `int`. -/
def goFmtD (n : Int) : String :=
  if n < 0 then "-" ++ String.mk (natDigits n.natAbs)
  else String.mk (natDigits n.toNat)

/-- Go `fmt` verb `%03d` on an `int`: minimum width 3, padded with zeros
placed after the sign. -/
def goFmt03d (n : Int) : String :=
  let digits := natDigits n.natAbs
  let signLen : Nat := if n < 0 then 1 else 0
  let pad : List Char :=
    if digits.length + signLen < 3 then
      List.replicate (3 - signLen - digits.length) '0'
    else []
  (if n < 0 then "-" else "") ++ String.mk (pad ++ digits)

/-- Source `Date.String`: `fmt.Sprintf("%d-%03d", d.year, d.yearDay)`. -/
def Date.String (d : Date) : String :=
  goFmtD d.year ++ "-" ++ goFmt03d d.yearDay

/-! ### ID and the serial encoding (source: `type_and_id.go`) -/

/-- Source `ID`: the type string and the unique suffix. -/
structure ID where
  t : String
  s : String
deriving DecidableEq, Repr

/-- Source `ID.IsValid`. -/
def ID.IsValid (id : ID) : Bool :=
  id.t != ""

/-- Source `ID.String`: empty for an invalid ID, otherwise
`<Type> "#" <UniqueSuffix>`. -/
def ID.str (id : ID) : String :=
  if id.t = "" then "" else id.t ++ "#" ++ id.s

/-- Source `encode64Table`: the 64-character alphabet for serial
encoding. -/
def encode64Table : List Char :=
  "0123456789ABCDEFGHIJKLMNOPQRSTUVWXYZabcdefghijklmnopqrstuvwxyz-_".data

/-- The character for one 6-bit digit (`encode64Table[i&077]`). -/
def encChar (d : Nat) : Char :=
  encode64Table.getD d ' '

/-- The digit loop of source `NewID`: write `i&077`, shift by 6, stop when
the shifted value is zero, otherwise decrement and continue.  Digits are
produced least-significant first. -/
def serialDigits (i : Nat) : List Char :=
  if h : i / 64 = 0 then [encChar (i % 64)]
  else encChar (i % 64) :: serialDigits (i / 64 - 1)
decreasing_by
  have h1 : 0 < i / 64 := Nat.pos_of_ne_zero h
  have h2 : i / 64 ≤ i := Nat.div_le_self i 64
  omega

/-- The suffix built by source `NewID`: the date string, `'-'`, then the
serial digits. -/
def idSuffix (date : Date) (i : Nat) : String :=
  date.String ++ "-" ++ String.mk (serialDigits i)

/-- Source `NewID`.  A negative serial is a panic, modelled as `none`; an
invalid type yields the zero-value ID. -/
def NewID (t : GoType) (date : Date) (i : Int) : Option ID :=
  if i < 0 then none
  else if !t.IsValid then some ⟨"", ""⟩
  else some ⟨t.str, idSuffix date i.toNat⟩

/-! ### Byte-level string validation (source: `IsValidTypeString` in
`type_and_id.go`, `IsValidPropNameString` in `part_005`)

Go indexes strings by byte, so these two predicates are embedded over
lists of byte values. -/

/-- The per-byte rejection test of the loops in `IsValidTypeString` and
`IsValidPropNameString`:
`t[i] < '0' || t[i] > 'z' || t[i] > '9' && t[i] < 'A' ||
 t[i] > 'Z' && t[i] != '_' && t[i] < 'a'`. -/
def goByteRejected (b : Nat) : Bool :=
  b < 48 || b > 122 || (b > 57 && b < 65) || (b > 90 && b != 95 && b < 97)

/-- Source `IsValidTypeString` over the bytes of the argument. -/
def IsValidTypeString (t : List Nat) : Bool :=
  match t with
  | [] => false
  | b0 :: rest =>
    if t.length > 65535 || b0 < 65 || b0 > 90 ||
        (decide (3 ≤ t.length) && decide (t.take 3 = [83, 76, 78])) then
      false
    else rest.all fun b => !goByteRejected b

/-- Source `IsValidPropNameString` over the bytes of the argument
(first byte lowercase, reserved prefix `"sln"` = bytes 115,108,110). -/
def IsValidPropNameString (t : List Nat) : Bool :=
  match t with
  | [] => false
  | b0 :: rest =>
    if t.length > 65535 || b0 < 97 || b0 > 122 ||
        (decide (3 ≤ t.length) && decide (t.take 3 = [115, 108, 110])) then
      false
    else rest.all fun b => !goByteRejected b

/-! Spec-side characterizations for claim C9, written from the spec's
words: non-empty, at most 65535 bytes, first byte an uppercase (resp.
lowercase) ASCII letter, every remaining byte ASCII alphanumeric or
underscore, and the whole string does not begin with `"SLN"` (resp.
`"sln"`). -/

/-- A byte is an ASCII alphanumeric or underscore. -/
def IsWordByte (b : Nat) : Prop :=
  (48 ≤ b ∧ b ≤ 57) ∨ (65 ≤ b ∧ b ≤ 90) ∨ b = 95 ∨ (97 ≤ b ∧ b ≤ 122)

/-- `t` begins with the three bytes `p0 p1 p2`. -/
def BeginsWith3 (p0 p1 p2 : Nat) (t : List Nat) : Prop :=
  ∃ rest, t = p0 :: p1 :: p2 :: rest

/-- Spec-side predicate for a valid type string (from the spec's words). -/
def TypeStringSpec (t : List Nat) : Prop :=
  match t with
  | [] => False
  | b0 :: rest =>
    t.length ≤ 65535 ∧ 65 ≤ b0 ∧ b0 ≤ 90 ∧
      (∀ b ∈ rest, IsWordByte b) ∧ ¬BeginsWith3 83 76 78 t

/-- Spec-side predicate for a valid property name string (from the spec's
words). -/
def PropNameStringSpec (t : List Nat) : Prop :=
  match t with
  | [] => False
  | b0 :: rest =>
    t.length ≤ 65535 ∧ 97 ≤ b0 ∧ b0 ≤ 122 ∧
      (∀ b ∈ rest, IsWordByte b) ∧ ¬BeginsWith3 115 108 110 t

/-! ### Property values (source: constraint `PropValue` in `prop_map.go`,
`PropType` and `PropTypeOf` in `prop_type.go`)

Go stores property values as `any`.  The embedding is a closed sum over
the kinds of the `PropValue` constraint.  The floating-point, complex and
`[]byte` kinds are omitted: no claim mentions them, IEEE equality is not
faithfully decidable, and Go's `==` on `[]byte` panics.  The constructor
`other` stands for a value of a type outside the `PropValue` constraint
(for example `struct{}`), for which `PropTypeOf` returns 0. -/

/-- A minimal stand-in for Go `time.Time` (an instant: seconds and
nanoseconds).  Only its identity as a distinct struct type matters to the
claims. -/
structure GoTime where
  sec : Int
  nsec : Int
deriving DecidableEq, Repr

inductive PropVal where
  | bool (b : Bool)
  | int (n : Int)
  | int8 (n : Int)
  | int16 (n : Int)
  | int32 (n : Int)
  | int64 (n : Int)
  | uint (n : Nat)
  | uint8 (n : Nat)
  | uint16 (n : Nat)
  | uint32 (n : Nat)
  | uint64 (n : Nat)
  | uintptr (n : Nat)
  | str (s : String)
  | time (t : GoTime)
  | date (d : Date)
  | other
deriving DecidableEq, Repr

/-- Source `PropType` is an `int8` tag; 0 is the invalid tag.  The
numerals follow the constant block in `prop_type.go`
(`PTBool = 1`, ..., `PTDate = 20`). -/
abbrev PropType := Int

def PTBool : PropType := 1
def PTInt : PropType := 2
def PTInt8 : PropType := 3
def PTInt16 : PropType := 4
def PTInt32 : PropType := 5
def PTInt64 : PropType := 6
def PTUint : PropType := 7
def PTUint8 : PropType := 8
def PTUint16 : PropType := 9
def PTUint32 : PropType := 10
def PTUint64 : PropType := 11
def PTUintptr : PropType := 12
def PTString : PropType := 18
def PTTime : PropType := 19
def PTDate : PropType := 20

/-- Source `PropTypeOf`: the tag registered for the dynamic type of the
value, 0 for a value outside the closed set. -/
def PropTypeOf (v : PropVal) : PropType :=
  match v with
  | .bool _ => PTBool
  | .int _ => PTInt
  | .int8 _ => PTInt8
  | .int16 _ => PTInt16
  | .int32 _ => PTInt32
  | .int64 _ => PTInt64
  | .uint _ => PTUint
  | .uint8 _ => PTUint8
  | .uint16 _ => PTUint16
  | .uint32 _ => PTUint32
  | .uint64 _ => PTUint64
  | .uintptr _ => PTUintptr
  | .str _ => PTString
  | .time _ => PTTime
  | .date _ => PTDate
  | .other => 0

/-- Source `PropType.IsValid`: `0 < i < maxPropType` (= 21). -/
def PropType.IsValidTag (i : PropType) : Bool :=
  0 < i && i < 21

/-- The value validator installed by source `NewPropMap`:
`PropTypeOf(value).IsValid()`. -/
def propValValid (v : PropVal) : Bool :=
  (PropTypeOf v).IsValidTag

/-! ### Go reflect conversion rules over the embedded kinds

`PropMapGet` dispatches on `reflect` assignability and convertibility.
Over the embedded kinds, Go's conversion rules are: identical types are
assignable; any two integer kinds are mutually convertible; an integer
kind is convertible to `string` (code-point conversion); no other pair is
convertible (in particular `gosln.Date` and `time.Time` are distinct
struct types with different fields, hence neither assignable nor
convertible to each other). -/

def isIntegerKind (t : PropType) : Bool :=
  2 ≤ t && t ≤ 12

/-- `reflect` `AssignableTo` between two registered kinds: identical
dynamic types. -/
def kindAssignableTo (a b : PropType) : Bool :=
  a.IsValidTag && a == b

/-- `reflect` `ConvertibleTo` between two registered kinds. -/
def kindConvertibleTo (a b : PropType) : Bool :=
  (isIntegerKind a && isIntegerKind b) ||
    (isIntegerKind a && b == PTString) ||
    (a.IsValidTag && a == b)

/-- The mathematical integer held by an integer-kind value. -/
def PropVal.intValue : PropVal → Int
  | .int n | .int8 n | .int16 n | .int32 n | .int64 n => n
  | .uint n | .uint8 n | .uint16 n | .uint32 n | .uint64 n | .uintptr n =>
    (n : Int)
  | _ => 0

/-- Two's-complement wrap of an integer into a signed width-`w` kind. -/
def wrapSigned (w : Nat) (n : Int) : Int :=
  (n + 2 ^ (w - 1)) % (2 ^ w : Nat) - 2 ^ (w - 1)

/-- Wrap of an integer into an unsigned width-`w` kind. -/
def wrapUnsigned (w : Nat) (n : Int) : Nat :=
  (n % (2 ^ w : Nat)).toNat

/-- Go conversion of an integer value to `string`: the UTF-8 string of the
code point, `"�"` when the value is not a valid code point.  (`int`
and `uint` are 64-bit, as on the platforms Go targets here.) -/
def goIntToString (n : Int) : String :=
  if 0 ≤ n ∧ n ≤ 1114111 ∧ (n < 55296 ∨ 57343 < n) then
    String.mk [Char.ofNat n.toNat]
  else String.mk [Char.ofNat 65533]

/-- `reflect` `Convert` of a stored value to a target kind, for a
convertible pair (mirrors the possible conversions over the embedded
kinds). -/
def goConvert (v : PropVal) (target : PropType) : PropVal :=
  if target = PTString then .str (goIntToString v.intValue)
  else if target = PTInt then .int (wrapSigned 64 v.intValue)
  else if target = PTInt8 then .int8 (wrapSigned 8 v.intValue)
  else if target = PTInt16 then .int16 (wrapSigned 16 v.intValue)
  else if target = PTInt32 then .int32 (wrapSigned 32 v.intValue)
  else if target = PTInt64 then .int64 (wrapSigned 64 v.intValue)
  else if target = PTUint then .uint (wrapUnsigned 64 v.intValue)
  else if target = PTUint8 then .uint8 (wrapUnsigned 8 v.intValue)
  else if target = PTUint16 then .uint16 (wrapUnsigned 16 v.intValue)
  else if target = PTUint32 then .uint32 (wrapUnsigned 32 v.intValue)
  else if target = PTUint64 then .uint64 (wrapUnsigned 64 v.intValue)
  else if target = PTUintptr then .uintptr (wrapUnsigned 64 v.intValue)
  else v

/-! ### The property map (source: `PropMap` in `prop_map.go`)

A `PropMap` value is embedded as an association list with unique keys
kept by construction; the interface value may be nil, hence
`Option PMap` where a nil map can occur. -/

abbrev PMap := List (PropName × PropVal)

/-- Go map lookup. -/
def pmGet (m : PMap) (k : PropName) : Option PropVal :=
  match m.find? fun e => e.1 == k with
  | some e => some e.2
  | none => none

/-- Go map store: replace an existing binding, otherwise append. -/
def pmStore (m : PMap) (k : PropName) (v : PropVal) : PMap :=
  if m.any fun e => e.1 == k then
    m.map fun e => if e.1 = k then (e.1, v) else e
  else m ++ [(k, v)]

/-- The keys of a `PMap`. -/
def pmKeys (m : PMap) : List PropName :=
  m.map fun e => e.1

/-- Errors reported by source `PropMapGet` (`*PropNotExistError`,
`*PropTypeError`). -/
inductive PropGetErr where
  | propNotExist (name : PropName)
  | propType (name : PropName) (target : PropType)
deriving DecidableEq, Repr

/-- Source `PropMapGet` (`prop_map.go` lines 244-268): nil or missing
yields `*PropNotExistError`; an assignable stored value is returned as
is; a convertible one is converted; otherwise `*PropTypeError`. -/
def PropMapGet (pm : Option PMap) (name : PropName) (vType : PropType) :
    Except PropGetErr PropVal :=
  match pm with
  | none => .error (.propNotExist name)
  | some m =>
    match pmGet m name with
    | none => .error (.propNotExist name)
    | some prop =>
      let propType := PropTypeOf prop
      if kindAssignableTo propType vType then .ok prop
      else if kindConvertibleTo propType vType then .ok (goConvert prop vType)
      else .error (.propType name vType)

/-- Source `PropMapSet`: reports an error on a nil map or an invalid
name, otherwise stores.  (The value passed always conforms to `PropValue`
by the generic constraint.) -/
def PropMapSet (pm : Option PMap) (name : PropName) (v : PropVal) :
    Option PMap :=
  match pm with
  | none => none
  | some m => if !name.IsValid then some m else some (pmStore m name v)

/-! ### List-set primitives (the `mapset` base of the validated sets)

Go's `mapset` is a hash set; it is embedded as a list with unique
elements kept by construction, membership being the only observation the
claims need. -/

/-- Add one element to a set (no-op when present). -/
def listInsert [DecidableEq α] (s : List α) (x : α) : List α :=
  if x ∈ s then s else s ++ [x]

/-- Add all given elements (`Set.Add`, `Set.Union`). -/
def listAddAll [DecidableEq α] (s : List α) (xs : List α) : List α :=
  xs.foldl listInsert s

/-- Remove all given elements (`Set.Remove`, `Set.Subtract`). -/
def listRemoveAll [DecidableEq α] (s : List α) (xs : List α) : List α :=
  s.filter fun y => !decide (y ∈ xs)

/-- Toggle one element (one step of `Set.DisjunctiveUnion`). -/
def listToggle [DecidableEq α] (s : List α) (x : α) : List α :=
  if x ∈ s then s.filter (fun y => !decide (y = x)) else s ++ [x]

/-- Toggle all given elements (`Set.DisjunctiveUnion`). -/
def listToggleAll [DecidableEq α] (s : List α) (xs : List α) : List α :=
  xs.foldl listToggle s

/-- Keep only elements of `xs` (`Set.Intersect`). -/
def listIntersect [DecidableEq α] (s : List α) (xs : List α) : List α :=
  s.filter fun y => decide (y ∈ xs)

/-- Store all pairs of `ps` into map `m` (`GoMap.SetMap`). -/
def pmStoreAll (m : PMap) (ps : PMap) : PMap :=
  ps.foldl (fun acc e => pmStore acc e.1 e.2) m

/-- Remove all given keys from map `m` (`GoMap.Remove`). -/
def pmRemoveAll (m : PMap) (ks : List PropName) : PMap :=
  m.filter fun e => !decide (e.1 ∈ ks)

/-! ### The mutually-exclusive clause family (source:
`NewPropMatchClause` in `match_cond.go`, `mutExclPropMap` in
`prop_map.go`, `mutExclPropNameSet` in `part_005`)

`NewPropMatchClause` wires three initialized collections so that each
one, after a successful insertion, removes the inserted names from the
other two.  The family is embedded as one state record, and every public
mutating method of the three components as one operation on that state.
A validation panic (invalid name or value) aborts the call before any
mutation, so a failed call leaves the state unchanged. -/

structure ClauseState where
  equal : PMap
  present : List PropName
  absent : List PropName
deriving DecidableEq, Repr

/-- The state right after source `NewPropMatchClause`: all three
components initialized and empty. -/
def initClause : ClauseState :=
  ⟨[], [], []⟩

/-- `mutExclPropMap.Set` on the `Equal` component (validate name and
value, store, then remove the name from both sibling sets).
`GetAndSet` mutates identically. -/
def eqSet (st : ClauseState) (k : PropName) (v : PropVal) : ClauseState :=
  if k.IsValid && propValValid v then
    ⟨pmStore st.equal k v, listRemoveAll st.present [k],
      listRemoveAll st.absent [k]⟩
  else st

/-- `mutExclPropMap.SetMap` on the `Equal` component (empty input is a
no-op; all pairs validated before any store; then every input key removed
from the siblings).  `GetAndSetMap` mutates identically. -/
def eqSetMap (st : ClauseState) (ps : PMap) : ClauseState :=
  if ps.isEmpty then st
  else if ps.all fun e => e.1.IsValid && propValValid e.2 then
    ⟨pmStoreAll st.equal ps, listRemoveAll st.present (pmKeys ps),
      listRemoveAll st.absent (pmKeys ps)⟩
  else st

/-- `mutExclPropMap.Remove` / `GetAndRemove` on `Equal`. -/
def eqRemove (st : ClauseState) (ks : List PropName) : ClauseState :=
  ⟨pmRemoveAll st.equal ks, st.present, st.absent⟩

/-- `mutExclPropMap.Filter` on `Equal` (keeps entries passing the
filter). -/
def eqFilter (st : ClauseState) (p : PropName → PropVal → Bool) :
    ClauseState :=
  ⟨st.equal.filter fun e => p e.1 e.2, st.present, st.absent⟩

/-- `mutExclPropMap.Clear` on `Equal`. -/
def eqClear (st : ClauseState) : ClauseState :=
  ⟨[], st.present, st.absent⟩

/-- `mutExclPropNameSet.Add` on the `Present` component (validate all
names; insert; then remove the inserted names from the sibling map and
set).  `Union` mutates identically apart from its empty-input guard. -/
def presAdd (st : ClauseState) (ks : List PropName) : ClauseState :=
  if ks.all PropName.IsValid then
    ⟨pmRemoveAll st.equal ks, listAddAll st.present ks,
      listRemoveAll st.absent ks⟩
  else st

/-- `mutExclPropNameSet.Union` on `Present`. -/
def presUnion (st : ClauseState) (ks : List PropName) : ClauseState :=
  if ks.isEmpty then st else presAdd st ks

/-- `mutExclPropNameSet.DisjunctiveUnion` on `Present`: toggle each input
name, then remove from the siblings exactly the input names left present
after the toggle. -/
def presDisjUnion (st : ClauseState) (ks : List PropName) : ClauseState :=
  if ks.isEmpty then st
  else if ks.all PropName.IsValid then
    let s := listToggleAll st.present ks
    let ins := ks.filter fun k => decide (k ∈ s)
    ⟨pmRemoveAll st.equal ins, s, listRemoveAll st.absent ins⟩
  else st

/-- `mutExclPropNameSet.Remove` / `Subtract` on `Present`. -/
def presRemove (st : ClauseState) (ks : List PropName) : ClauseState :=
  ⟨st.equal, listRemoveAll st.present ks, st.absent⟩

/-- `mutExclPropNameSet.Intersect` on `Present`. -/
def presIntersect (st : ClauseState) (ks : List PropName) : ClauseState :=
  ⟨st.equal, listIntersect st.present ks, st.absent⟩

/-- `mutExclPropNameSet.Filter` on `Present`. -/
def presFilter (st : ClauseState) (p : PropName → Bool) : ClauseState :=
  ⟨st.equal, st.present.filter p, st.absent⟩

/-- `mutExclPropNameSet.Clear` on `Present`. -/
def presClear (st : ClauseState) : ClauseState :=
  ⟨st.equal, [], st.absent⟩

/-- `mutExclPropNameSet.Add` / `Union` on the `Absent` component. -/
def absAdd (st : ClauseState) (ks : List PropName) : ClauseState :=
  if ks.all PropName.IsValid then
    ⟨pmRemoveAll st.equal ks, listRemoveAll st.present ks,
      listAddAll st.absent ks⟩
  else st

/-- `mutExclPropNameSet.Union` on `Absent`. -/
def absUnion (st : ClauseState) (ks : List PropName) : ClauseState :=
  if ks.isEmpty then st else absAdd st ks

/-- `mutExclPropNameSet.DisjunctiveUnion` on `Absent`. -/
def absDisjUnion (st : ClauseState) (ks : List PropName) : ClauseState :=
  if ks.isEmpty then st
  else if ks.all PropName.IsValid then
    let s := listToggleAll st.absent ks
    let ins := ks.filter fun k => decide (k ∈ s)
    ⟨pmRemoveAll st.equal ins, listRemoveAll st.present ins, s⟩
  else st

/-- `mutExclPropNameSet.Remove` / `Subtract` on `Absent`. -/
def absRemove (st : ClauseState) (ks : List PropName) : ClauseState :=
  ⟨st.equal, st.present, listRemoveAll st.absent ks⟩

/-- `mutExclPropNameSet.Intersect` on `Absent`. -/
def absIntersect (st : ClauseState) (ks : List PropName) : ClauseState :=
  ⟨st.equal, st.present, listIntersect st.absent ks⟩

/-- `mutExclPropNameSet.Filter` on `Absent`. -/
def absFilter (st : ClauseState) (p : PropName → Bool) : ClauseState :=
  ⟨st.equal, st.present, st.absent.filter p⟩

/-- `mutExclPropNameSet.Clear` on `Absent`. -/
def absClear (st : ClauseState) : ClauseState :=
  ⟨st.equal, st.present, []⟩

/-- One public mutating call on the clause family. -/
inductive ClauseOp where
  | eqSet (k : PropName) (v : PropVal)
  | eqSetMap (ps : PMap)
  | eqRemove (ks : List PropName)
  | eqFilter (p : PropName → PropVal → Bool)
  | eqClear
  | presAdd (ks : List PropName)
  | presUnion (ks : List PropName)
  | presDisjUnion (ks : List PropName)
  | presRemove (ks : List PropName)
  | presIntersect (ks : List PropName)
  | presFilter (p : PropName → Bool)
  | presClear
  | absAdd (ks : List PropName)
  | absUnion (ks : List PropName)
  | absDisjUnion (ks : List PropName)
  | absRemove (ks : List PropName)
  | absIntersect (ks : List PropName)
  | absFilter (p : PropName → Bool)
  | absClear

def applyClauseOp (st : ClauseState) : ClauseOp → ClauseState
  | .eqSet k v => eqSet st k v
  | .eqSetMap ps => eqSetMap st ps
  | .eqRemove ks => eqRemove st ks
  | .eqFilter p => eqFilter st p
  | .eqClear => eqClear st
  | .presAdd ks => presAdd st ks
  | .presUnion ks => presUnion st ks
  | .presDisjUnion ks => presDisjUnion st ks
  | .presRemove ks => presRemove st ks
  | .presIntersect ks => presIntersect st ks
  | .presFilter p => presFilter st p
  | .presClear => presClear st
  | .absAdd ks => absAdd st ks
  | .absUnion ks => absUnion st ks
  | .absDisjUnion ks => absDisjUnion st ks
  | .absRemove ks => absRemove st ks
  | .absIntersect ks => absIntersect st ks
  | .absFilter p => absFilter st p
  | .absClear => absClear st

def applyClauseOps (ops : List ClauseOp) (st : ClauseState) : ClauseState :=
  ops.foldl applyClauseOp st

/-- Each property name occurs in at most one of the three components. -/
def ClauseDisj (st : ClauseState) : Prop :=
  (∀ k, k ∈ pmKeys st.equal → k ∉ st.present ∧ k ∉ st.absent) ∧
    ∀ k, k ∈ st.present → k ∉ st.absent

/-! ### The mutually-exclusive mutate-argument family (source:
`NewPropMutateArg` in `prop_mutate_arg.go`)

`NewPropMutateArg` wires a `ToBeSet` map and a `ToBeRemoved` name set as
mutual siblings. -/

structure ArgState where
  toBeSet : PMap
  toBeRemoved : List PropName
deriving DecidableEq, Repr

/-- The state right after source `NewPropMutateArg`. -/
def initArg : ArgState :=
  ⟨[], []⟩

/-- `mutExclPropMap.Set` / `GetAndSet` on `ToBeSet`. -/
def argSet (st : ArgState) (k : PropName) (v : PropVal) : ArgState :=
  if k.IsValid && propValValid v then
    ⟨pmStore st.toBeSet k v, listRemoveAll st.toBeRemoved [k]⟩
  else st

/-- `mutExclPropMap.SetMap` / `GetAndSetMap` on `ToBeSet`. -/
def argSetMap (st : ArgState) (ps : PMap) : ArgState :=
  if ps.isEmpty then st
  else if ps.all fun e => e.1.IsValid && propValValid e.2 then
    ⟨pmStoreAll st.toBeSet ps, listRemoveAll st.toBeRemoved (pmKeys ps)⟩
  else st

/-- `mutExclPropMap.Remove` / `GetAndRemove` on `ToBeSet`. -/
def argMapRemove (st : ArgState) (ks : List PropName) : ArgState :=
  ⟨pmRemoveAll st.toBeSet ks, st.toBeRemoved⟩

/-- `mutExclPropMap.Filter` on `ToBeSet`. -/
def argMapFilter (st : ArgState) (p : PropName → PropVal → Bool) : ArgState :=
  ⟨st.toBeSet.filter fun e => p e.1 e.2, st.toBeRemoved⟩

/-- `mutExclPropMap.Clear` on `ToBeSet`. -/
def argMapClear (st : ArgState) : ArgState :=
  ⟨[], st.toBeRemoved⟩

/-- `mutExclPropNameSet.Add` / `Union` on `ToBeRemoved`. -/
def argAdd (st : ArgState) (ks : List PropName) : ArgState :=
  if ks.all PropName.IsValid then
    ⟨pmRemoveAll st.toBeSet ks, listAddAll st.toBeRemoved ks⟩
  else st

/-- `mutExclPropNameSet.Union` on `ToBeRemoved`. -/
def argUnion (st : ArgState) (ks : List PropName) : ArgState :=
  if ks.isEmpty then st else argAdd st ks

/-- `mutExclPropNameSet.DisjunctiveUnion` on `ToBeRemoved`. -/
def argDisjUnion (st : ArgState) (ks : List PropName) : ArgState :=
  if ks.isEmpty then st
  else if ks.all PropName.IsValid then
    let s := listToggleAll st.toBeRemoved ks
    let ins := ks.filter fun k => decide (k ∈ s)
    ⟨pmRemoveAll st.toBeSet ins, s⟩
  else st

/-- `mutExclPropNameSet.Remove` / `Subtract` on `ToBeRemoved`. -/
def argSetRemove (st : ArgState) (ks : List PropName) : ArgState :=
  ⟨st.toBeSet, listRemoveAll st.toBeRemoved ks⟩

/-- `mutExclPropNameSet.Intersect` on `ToBeRemoved`. -/
def argSetIntersect (st : ArgState) (ks : List PropName) : ArgState :=
  ⟨st.toBeSet, listIntersect st.toBeRemoved ks⟩

/-- `mutExclPropNameSet.Filter` on `ToBeRemoved`. -/
def argSetFilter (st : ArgState) (p : PropName → Bool) : ArgState :=
  ⟨st.toBeSet, st.toBeRemoved.filter p⟩

/-- `mutExclPropNameSet.Clear` on `ToBeRemoved`. -/
def argSetClear (st : ArgState) : ArgState :=
  ⟨st.toBeSet, []⟩

/-- One public mutating call on the mutate-argument family. -/
inductive ArgOp where
  | set (k : PropName) (v : PropVal)
  | setMap (ps : PMap)
  | mapRemove (ks : List PropName)
  | mapFilter (p : PropName → PropVal → Bool)
  | mapClear
  | add (ks : List PropName)
  | union (ks : List PropName)
  | disjUnion (ks : List PropName)
  | setRemove (ks : List PropName)
  | setIntersect (ks : List PropName)
  | setFilter (p : PropName → Bool)
  | setClear

def applyArgOp (st : ArgState) : ArgOp → ArgState
  | .set k v => argSet st k v
  | .setMap ps => argSetMap st ps
  | .mapRemove ks => argMapRemove st ks
  | .mapFilter p => argMapFilter st p
  | .mapClear => argMapClear st
  | .add ks => argAdd st ks
  | .union ks => argUnion st ks
  | .disjUnion ks => argDisjUnion st ks
  | .setRemove ks => argSetRemove st ks
  | .setIntersect ks => argSetIntersect st ks
  | .setFilter p => argSetFilter st p
  | .setClear => argSetClear st

def applyArgOps (ops : List ArgOp) (st : ArgState) : ArgState :=
  ops.foldl applyArgOp st

/-- Each property name occurs in at most one of the two components. -/
def ArgDisj (st : ArgState) : Prop :=
  ∀ k, k ∈ pmKeys st.toBeSet → k ∉ st.toBeRemoved

/-! ### Property matching (source: `propMatchClauseImpl.Match` in
`match_cond.go`, lines 96-122)

The three `Range` loops are embedded literally: each closure overwrites
the shared accumulator `ok` and the loop continues while the closure
returns true.  The accumulator is declared as `var ok bool`, so it starts
at `false`. -/

/-- The `pmc.equal.Range` loop: for each entry, `ok` becomes "key present
in props with an equal value"; continue while `ok`. -/
def equalLoop (props : PMap) : PMap → Bool → Bool
  | [], ok => ok
  | e :: rest, _ =>
    let ok :=
      match pmGet props e.1 with
      | some v => v == e.2
      | none => false
    if ok then equalLoop props rest ok else ok

/-- The `pmc.present.Range` loop: `ok` becomes "name present"; continue
while `ok`. -/
def presentLoop (props : PMap) : List PropName → Bool → Bool
  | [], ok => ok
  | k :: rest, _ =>
    let ok := (pmGet props k).isSome
    if ok then presentLoop props rest ok else ok

/-- The `pmc.absent.Range` loop: `ok` becomes "name present"; continue
while `!ok`. -/
def absentLoop (props : PMap) : List PropName → Bool → Bool
  | [], ok => ok
  | k :: rest, _ =>
    let ok := (pmGet props k).isSome
    if !ok then absentLoop props rest ok else ok

/-- Source `propMatchClauseImpl.Match`. -/
def matchClause (pmc : ClauseState) (props : Option PMap) : Bool :=
  match props with
  | none => pmc.equal.length == 0 && pmc.present.length == 0
  | some props =>
    let ok := false
    let ok := equalLoop props pmc.equal ok
    if !ok then false
    else
      let ok := presentLoop props pmc.present ok
      if !ok then false
      else
        let ok := absentLoop props pmc.absent ok
        !ok

/-! ### Node matching (source: `nodeMatchClauseImpl.Match` and
`NodeMatchCond.Match` in `match_cond.go`) -/

/-- Modelled from the spec: the `Node` entity record consumed by the
match evaluator ("an entity record: ID, Type, PropertyMap").  The `Node`
struct revision that `match_cond.go` matches against (fields `ID`,
`Type`, `Props PropMap`) is not among the source files; only the fields
the evaluator reads are modelled, with a possibly-nil property map. -/
structure Node where
  id : ID
  t : GoType
  props : Option PMap

/-- Source `nlMatchClauseImpl` as specialized by `nodeMatchClauseImpl`:
the specified ID (zero value when unspecified), the specified type, and
an optional property clause. -/
structure NodeClause where
  id : ID
  t : GoType
  pmc : Option ClauseState

/-- Source `nodeMatchClauseImpl.Match` (a nil node never matches; a
specified ID or type must agree; a set property clause must match the
node's properties). -/
def nodeClauseMatch (nmc : NodeClause) (node : Option Node) : Bool :=
  match node with
  | none => false
  | some n =>
    if nmc.id.IsValid && n.id != nmc.id then false
    else if nmc.t.IsValid && n.t != nmc.t then false
    else
      match nmc.pmc with
      | some pmc => matchClause pmc n.props
      | none => true

/-- The loop of source `NodeMatchCond.Match`: first non-nil clause that
matches wins. -/
def condLoop (node : Option Node) : List (Option NodeClause) → Bool
  | [] => false
  | oc :: rest =>
    match oc with
    | some nmc => if nodeClauseMatch nmc node then true else condLoop node rest
    | none => condLoop node rest

/-- Source `NodeMatchCond.Match`: the nil condition matches everything;
otherwise the disjunction over non-nil clauses.  A `NodeMatchCond` is a
Go slice, embedded as `Option` (nil slice versus a possibly-empty list)
of possibly-nil clauses. -/
def nodeCondMatch (cond : Option (List (Option NodeClause)))
    (node : Option Node) : Bool :=
  match cond with
  | none => true
  | some l => condLoop node l

/-! ### The generic validated set and map (source:
`valid_set_and_map.go`)

A Go panic raised by a call is modelled as the first component of the
result: `some fault`, in which case the returned state is the one the
source holds when the panic propagates. -/

/-- Source `validSet`: the underlying set and the item validator.  (The
error factory `errFn` only formats the fault; the fault here carries the
offending item itself.) -/
structure ValidSet (α : Type) where
  s : List α
  validateFn : α → Bool

/-- Source `validSet.Add`: validate every item in order (panic at the
first invalid one, before any mutation), then add all. -/
def vsAdd [DecidableEq α] (vs : ValidSet α) (xs : List α) :
    Option α × ValidSet α :=
  match xs.find? fun x => !vs.validateFn x with
  | some bad => (some bad, vs)
  | none => (none, ⟨listAddAll vs.s xs, vs.validateFn⟩)

/-- Source `validSet.Union`: nil/empty guard, validate all items of the
argument, then union. -/
def vsUnion [DecidableEq α] (vs : ValidSet α) (xs : List α) :
    Option α × ValidSet α :=
  if xs.isEmpty then (none, vs)
  else
    match xs.find? fun x => !vs.validateFn x with
    | some bad => (some bad, vs)
    | none => (none, ⟨listAddAll vs.s xs, vs.validateFn⟩)

/-- Source `validSet.DisjunctiveUnion`: nil/empty guard, validate all,
then symmetric difference. -/
def vsDisjUnion [DecidableEq α] (vs : ValidSet α) (xs : List α) :
    Option α × ValidSet α :=
  if xs.isEmpty then (none, vs)
  else
    match xs.find? fun x => !vs.validateFn x with
    | some bad => (some bad, vs)
    | none => (none, ⟨listToggleAll vs.s xs, vs.validateFn⟩)

/-- Source `validSet.Remove`: no validation, only shrinks. -/
def vsRemove [DecidableEq α] (vs : ValidSet α) (xs : List α) :
    Option α × ValidSet α :=
  (none, ⟨listRemoveAll vs.s xs, vs.validateFn⟩)

/-- Source `validSet.Intersect`. -/
def vsIntersect [DecidableEq α] (vs : ValidSet α) (xs : List α) :
    Option α × ValidSet α :=
  (none, ⟨listIntersect vs.s xs, vs.validateFn⟩)

/-- Source `validSet.Subtract`. -/
def vsSubtract [DecidableEq α] (vs : ValidSet α) (xs : List α) :
    Option α × ValidSet α :=
  (none, ⟨listRemoveAll vs.s xs, vs.validateFn⟩)

/-- Source `validSet.Clear`. -/
def vsClear (vs : ValidSet α) : Option α × ValidSet α :=
  (none, ⟨[], vs.validateFn⟩)

/-! Generic association-list primitives for the validated map. -/

def alStore [DecidableEq κ] (m : List (κ × ν)) (k : κ) (v : ν) :
    List (κ × ν) :=
  if m.any fun e => e.1 == k then
    m.map fun e => if e.1 = k then (e.1, v) else e
  else m ++ [(k, v)]

def alStoreAll [DecidableEq κ] (m ps : List (κ × ν)) : List (κ × ν) :=
  ps.foldl (fun acc e => alStore acc e.1 e.2) m

def alRemoveAll [DecidableEq κ] (m : List (κ × ν)) (ks : List κ) :
    List (κ × ν) :=
  m.filter fun e => !decide (e.1 ∈ ks)

/-- A fault raised by the validated map: an invalid key or an invalid
value (source wraps them through `keyErrFn` / `valueErrFn`). -/
inductive MapFault (κ ν : Type) where
  | key (k : κ)
  | value (v : ν)
deriving DecidableEq

def isKeyFault : Option (MapFault κ ν) → Bool
  | some (.key _) => true
  | _ => false

def isValueFault : Option (MapFault κ ν) → Bool
  | some (.value _) => true
  | _ => false

/-- Source `validMap`: the underlying Go map and the two validators. -/
structure ValidMap (κ ν : Type) where
  m : List (κ × ν)
  keyValidateFn : κ → Bool
  valueValidateFn : ν → Bool

/-- Source `newValidMap` with the capability probing made explicit: a
validator argument is `none` when the Go caller passes nil, and
`keyIsValidMethod` / `valueIsValidMethod` is `some f` exactly when the
type parameter has the method `IsValid() bool`, `f` being that method
and `zeroValue` the Go zero value of `Value`.  When a nil validator has
no method to fall back on, the constructor panics (`none`).  Note the
source's value fallback closure
`func(value Value) bool { return any(v).(interface{ IsValid() bool }).IsValid() }`
evaluates the captured zero value `v`, not its argument `value`, while
the key fallback evaluates its argument `key`. -/
def newValidMap (keyValidateFn : Option (κ → Bool))
    (keyIsValidMethod : Option (κ → Bool))
    (valueValidateFn : Option (ν → Bool))
    (valueIsValidMethod : Option (ν → Bool)) (zeroValue : ν) :
    Option (ValidMap κ ν) :=
  let kf : Option (κ → Bool) :=
    match keyValidateFn with
    | some f => some f
    | none =>
      match keyIsValidMethod with
      | some method => some fun key => method key
      | none => none
  let vf : Option (ν → Bool) :=
    match valueValidateFn with
    | some f => some f
    | none =>
      match valueIsValidMethod with
      | some method => some fun _ => method zeroValue
      | none => none
  match kf, vf with
  | some kf, some vf => some ⟨[], kf, vf⟩
  | _, _ => none

/-- Source `validMap.validateKeyAndValue`: key first, then value. -/
def vmValidateKV (vm : ValidMap κ ν) (k : κ) (v : ν) :
    Option (MapFault κ ν) :=
  if !vm.keyValidateFn k then some (.key k)
  else if !vm.valueValidateFn v then some (.value v)
  else none

/-- Source `validMap.Set`. -/
def vmSet [DecidableEq κ] (vm : ValidMap κ ν) (k : κ) (v : ν) :
    Option (MapFault κ ν) × ValidMap κ ν :=
  match vmValidateKV vm k v with
  | some f => (some f, vm)
  | none => (none, ⟨alStore vm.m k v, vm.keyValidateFn, vm.valueValidateFn⟩)

/-- Source `validMap.GetAndSet`: same validation and mutation as `Set`,
also yielding the previous binding. -/
def vmGetAndSet [DecidableEq κ] (vm : ValidMap κ ν) (k : κ) (v : ν) :
    Option (MapFault κ ν) × ValidMap κ ν :=
  match vmValidateKV vm k v with
  | some f => (some f, vm)
  | none => (none, ⟨alStore vm.m k v, vm.keyValidateFn, vm.valueValidateFn⟩)

/-- The per-entry fault of `validMap.validateAllKeysAndValuesInMap`. -/
def vmEntryFault (vm : ValidMap κ ν) (e : κ × ν) : MapFault κ ν :=
  if !vm.keyValidateFn e.1 then .key e.1 else .value e.2

/-- Source `validMap.SetMap`: nil/empty guard, validate every pair before
any store, then store all. -/
def vmSetMap [DecidableEq κ] (vm : ValidMap κ ν) (ps : List (κ × ν)) :
    Option (MapFault κ ν) × ValidMap κ ν :=
  if ps.isEmpty then (none, vm)
  else
    match ps.find? fun e => !(vm.keyValidateFn e.1 && vm.valueValidateFn e.2) with
    | some e => (some (vmEntryFault vm e), vm)
    | none =>
      (none, ⟨alStoreAll vm.m ps, vm.keyValidateFn, vm.valueValidateFn⟩)

/-- Source `validMap.GetAndSetMap`: as `SetMap`, also yielding the
previous bindings. -/
def vmGetAndSetMap [DecidableEq κ] (vm : ValidMap κ ν) (ps : List (κ × ν)) :
    Option (MapFault κ ν) × ValidMap κ ν :=
  if ps.isEmpty then (none, vm)
  else
    match ps.find? fun e => !(vm.keyValidateFn e.1 && vm.valueValidateFn e.2) with
    | some e => (some (vmEntryFault vm e), vm)
    | none =>
      (none, ⟨alStoreAll vm.m ps, vm.keyValidateFn, vm.valueValidateFn⟩)

/-- Source `validMap.Remove`: no validation. -/
def vmRemove [DecidableEq κ] (vm : ValidMap κ ν) (ks : List κ) :
    Option (MapFault κ ν) × ValidMap κ ν :=
  (none, ⟨alRemoveAll vm.m ks, vm.keyValidateFn, vm.valueValidateFn⟩)

/-- Source `validMap.GetAndRemove`: no validation. -/
def vmGetAndRemove [DecidableEq κ] (vm : ValidMap κ ν) (k : κ) :
    Option (MapFault κ ν) × ValidMap κ ν :=
  (none, ⟨alRemoveAll vm.m [k], vm.keyValidateFn, vm.valueValidateFn⟩)

/-- Source `validMap.Clear`: no validation. -/
def vmClear (vm : ValidMap κ ν) : Option (MapFault κ ν) × ValidMap κ ν :=
  (none, ⟨[], vm.keyValidateFn, vm.valueValidateFn⟩)

/-! ## Helper lemmas -/

/-- The loop of `NodeMatchCond.Match` computes the disjunction over the
non-nil clauses. -/
theorem condLoop_eq_any (node : Option Node) (l : List (Option NodeClause)) :
    condLoop node l =
      l.any fun oc => oc.elim false fun nmc => nodeClauseMatch nmc node := by
  induction l with
  | nil => rfl
  | cons oc rest ih =>
    cases oc with
    | none => simpa [condLoop] using ih
    | some nmc =>
      by_cases h : nodeClauseMatch nmc node = true
      · simp [condLoop, h]
      · simp only [Bool.not_eq_true] at h
        simp [condLoop, h, ih]

/-! ## Claim theorems -/

/-- Claim C1 (code bug): the claim states that a `PropMatchClause` built
via `NewPropMatchClause` matches a non-nil property map iff every `Equal`
pair is present with an equal value, every `Present` name exists, and
every `Absent` name is absent; in particular a clause with only
`equal:{age:30}` matches `{age:30, city:"X"}`, and a clause with only
`present:{x}`, `absent:{y}` matches `{x:1}`.  The source's `Match`
declares its accumulator as `var ok bool` (initially `false`) and never
resets it before the absent stage, so a clause with an empty `Equal`
component or an empty `Absent` component can never match a non-nil map:
both of the claim's positive examples evaluate to `false`.  (The claim's
negative examples do evaluate to `false`, as shown.) -/
theorem c1_match_code_bug :
    matchClause (eqSet initClause ⟨"age"⟩ (.int 30))
        (some [(⟨"age"⟩, .int 30), (⟨"city"⟩, .str "X")]) = false ∧
      matchClause (eqSet initClause ⟨"age"⟩ (.int 30))
        (some [(⟨"age"⟩, .int 31)]) = false ∧
      matchClause (eqSet initClause ⟨"age"⟩ (.int 30)) (some []) = false ∧
      matchClause (absAdd (presAdd initClause [⟨"x"⟩]) [⟨"y"⟩])
        (some [(⟨"x"⟩, .int 1)]) = false ∧
      matchClause (absAdd (presAdd initClause [⟨"x"⟩]) [⟨"y"⟩])
        (some [(⟨"x"⟩, .int 1), (⟨"y"⟩, .int 1)]) = false := by
  decide

/-- Claim C2 (code bug): the claim states that a stored `Date` read back
as `time.Time` succeeds (midnight UTC), and a stored `time.Time` read
back as `Date` succeeds (UTC calendar day), as the repository's own test
`TestPropMapGet_TimeAndDate` expects.  `PropMapGet` in `prop_map.go`
dispatches only on reflect assignability/convertibility, and the two
struct types are neither assignable nor convertible to each other, so
both reads report a `*PropTypeError`. -/
theorem c2_propmapget_code_bug :
    PropMapGet (PropMapSet (some []) ⟨"date"⟩ (.date ⟨2023, 71⟩)) ⟨"date"⟩
        PTTime = .error (.propType ⟨"date"⟩ PTTime) ∧
      PropMapGet (PropMapSet (some []) ⟨"date"⟩ (.time ⟨1678579200, 0⟩))
        ⟨"date"⟩ PTDate = .error (.propType ⟨"date"⟩ PTDate) :=
  ⟨rfl, rfl⟩

/-- Claim C6: a nil `NodeMatchCond` matches every node, including a nil
node pointer; a non-nil but empty condition matches no node; a non-nil,
non-empty condition matches iff some non-nil clause matches (nil clauses
skipped); and an individual `NodeMatchClause.Match` is false on a nil
node. -/
theorem c6_node_match_cond :
    (∀ node, nodeCondMatch none node = true) ∧
      (∀ node, nodeCondMatch (some []) node = false) ∧
      (∀ l node, nodeCondMatch (some l) node =
        l.any fun oc => oc.elim false fun nmc => nodeClauseMatch nmc node) ∧
      ∀ nmc, nodeClauseMatch nmc none = false := by
  refine ⟨fun node => rfl, fun node => rfl, fun l node => ?_, fun nmc => rfl⟩
  exact condLoop_eq_any node l

/-- Claim C7: `NewID` panics on every negative serial, whatever the
type; and for a non-negative serial with an invalid type it returns the
zero-value (invalid) ID without panicking. -/
theorem c7_newid_negative_panics :
    (∀ (t : GoType) (d : Date) (i : Int), i < 0 → NewID t d i = none) ∧
      ∀ (t : GoType) (d : Date) (i : Int), 0 ≤ i → t.IsValid = false →
        NewID t d i = some ⟨"", ""⟩ ∧ ID.IsValid ⟨"", ""⟩ = false := by
  constructor
  · intro t d i h
    simp [NewID, h]
  · intro t d i h ht
    have : ¬i < 0 := by omega
    simp [NewID, this, ht, ID.IsValid]

/-- Witness for C7 at concrete inputs. -/
theorem c7_newid_negative_panics_witness :
    (((-1 : Int) < 0) ∧ NewID ⟨"TestType_1"⟩ ⟨2023, 71⟩ (-1) = none) ∧
      (0 ≤ (5 : Int) ∧ GoType.IsValid ⟨""⟩ = false ∧
        NewID ⟨""⟩ ⟨2023, 71⟩ 5 = some ⟨"", ""⟩ ∧
        ID.IsValid ⟨"", ""⟩ = false) :=
  ⟨⟨by decide, c7_newid_negative_panics.1 ⟨"TestType_1"⟩ ⟨2023, 71⟩ (-1)
      (by decide)⟩,
    ⟨by decide, by decide,
      (c7_newid_negative_panics.2 ⟨""⟩ ⟨2023, 71⟩ 5 (by decide) (by decide)).1,
      (c7_newid_negative_panics.2 ⟨""⟩ ⟨2023, 71⟩ 5 (by decide)
        (by decide)).2⟩⟩

/-- `natDigits` always produces at least one digit. -/
theorem natDigits_ne_nil (n : Nat) : natDigits n ≠ [] := by
  rw [natDigits]
  split
  · simp
  · simp

/-- `natDigits n` has at most `k + 1` digits when `n < 10 ^ (k + 1)`. -/
theorem natDigits_len_le (k n : Nat) (h : n < 10 ^ (k + 1)) :
    (natDigits n).length ≤ k + 1 := by
  induction k generalizing n with
  | zero =>
    rw [natDigits]
    split
    · simp
    · omega
  | succ k ih =>
    rw [natDigits]
    split
    · simp
    · rename_i h10
      have hd : n / 10 < 10 ^ (k + 1) := by
        rw [pow_succ] at h
        omega
      have := ih (n / 10) hd
      simp only [List.length_append, List.length_cons, List.length_nil]
      omega

theorem string_mk_length (l : List Char) : (String.mk l).length = l.length :=
  rfl

theorem empty_append_mk (l : List Char) : "" ++ String.mk l = String.mk l :=
  rfl

/-- `%03d` of a day-of-year in `[1, 366]` is exactly three characters. -/
theorem goFmt03d_len (n : Int) (h1 : 1 ≤ n) (h2 : n ≤ 366) :
    (goFmt03d n).length = 3 := by
  have hneg : ¬n < 0 := by omega
  have hpos : 0 < (natDigits n.natAbs).length :=
    List.length_pos.mpr (natDigits_ne_nil n.natAbs)
  have hle := natDigits_len_le 2 n.natAbs (by omega)
  simp only [goFmt03d, hneg, if_false]
  rw [empty_append_mk, string_mk_length]
  simp only [List.length_append, List.length_replicate, Nat.add_zero]
  split
  · rename_i hc
    simp only [List.length_replicate]
    omega
  · rename_i hc
    simp only [List.length_nil]
    omega

/-- Claim C8: for a valid type, a date and a non-negative serial, the ID
formats as `<Type>#<Date>-<digits>`; the date part is
`%d "-" %03d` (three digits for a real day-of-year); serial 0 formats
with digit suffix `"0"`, serial 64 with `"00"` and serial 4160 with
`"000"` (digits least-significant first); an invalid ID formats to the
empty string. -/
theorem c8_id_string_format :
    (∀ (t : GoType) (d : Date) (i : Int), t.IsValid = true → 0 ≤ i →
      ∃ id, NewID t d i = some id ∧
        id.str = t.str ++ "#" ++ d.String ++ "-" ++
          String.mk (serialDigits i.toNat)) ∧
      (∀ d : Date, d.String = goFmtD d.year ++ "-" ++ goFmt03d d.yearDay) ∧
      (∀ n : Int, 1 ≤ n → n ≤ 366 → (goFmt03d n).length = 3) ∧
      (∀ d : Date, (NewID ⟨"TestType_1"⟩ d 0).map ID.str =
        some ("TestType_1#" ++ d.String ++ "-0")) ∧
      String.mk (serialDigits 64) = "00" ∧
      String.mk (serialDigits 4160) = "000" ∧
      ∀ id : ID, id.IsValid = false → id.str = "" := by
  refine ⟨?_, fun d => rfl, goFmt03d_len, ?_, ?_, ?_, ?_⟩
  · intro t d i ht hi
    have hneg : ¬i < 0 := by omega
    refine ⟨⟨t.str, idSuffix d i.toNat⟩, ?_, ?_⟩
    · simp [NewID, hneg, ht]
    · have htt : t.t ≠ "" := by simpa [GoType.IsValid] using ht
      simp [ID.str, GoType.str, idSuffix, htt, String.append_assoc]
  · intro d
    have hs : serialDigits 0 = ['0'] := by
      simp [serialDigits, encChar, encode64Table]
    simp [NewID, GoType.IsValid, ID.str, idSuffix, GoType.str, hs]
    rw [← String.append_assoc, ← String.append_assoc, String.append_assoc]
    rfl
  · simp [serialDigits, encChar, encode64Table]
  · simp [serialDigits, encChar, encode64Table]
  · intro id h
    have : id.t = "" := by simpa [ID.IsValid] using h
    simp [ID.str, this]

/-- Witness for C8 at concrete inputs. -/
theorem c8_id_string_format_witness :
    (GoType.IsValid ⟨"TestType_1"⟩ = true ∧ (0 : Int) ≤ 5 ∧
      ∃ id, NewID ⟨"TestType_1"⟩ ⟨2023, 71⟩ 5 = some id ∧
        id.str = GoType.str ⟨"TestType_1"⟩ ++ "#" ++ Date.String ⟨2023, 71⟩ ++
          "-" ++ String.mk (serialDigits (Int.toNat 5))) ∧
      (1 ≤ (71 : Int) ∧ (71 : Int) ≤ 366 ∧ (goFmt03d 71).length = 3) ∧
      (ID.IsValid ⟨"", ""⟩ = false ∧ ID.str ⟨"", ""⟩ = "") :=
  ⟨⟨by decide, by decide,
      c8_id_string_format.1 ⟨"TestType_1"⟩ ⟨2023, 71⟩ 5 (by decide)
        (by decide)⟩,
    ⟨by decide, by decide, c8_id_string_format.2.2.1 71 (by decide)
      (by decide)⟩,
    ⟨by decide, c8_id_string_format.2.2.2.2.2.2 ⟨"", ""⟩ (by decide)⟩⟩

/-- The loop's per-byte test accepts exactly the ASCII alphanumerics and
underscore. -/
theorem byteRejected_iff (b : Nat) : goByteRejected b = false ↔ IsWordByte b := by
  simp [goByteRejected, IsWordByte]
  omega

/-- The source's `len(t) >= 3 && t[:3] == p` test captures "begins
with the 3-byte prefix `p`". -/
theorem prefix3_iff (p0 p1 p2 : Nat) (t : List Nat) :
    (decide (3 ≤ t.length) && decide (t.take 3 = [p0, p1, p2])) = true ↔
      BeginsWith3 p0 p1 p2 t := by
  rcases t with _ | ⟨a, _ | ⟨b, _ | ⟨c, rest⟩⟩⟩ <;>
    simp [BeginsWith3, List.take]

theorem valid_type_iff (t : List Nat) :
    IsValidTypeString t = true ↔ TypeStringSpec t := by
  cases t with
  | nil => simp [IsValidTypeString, TypeStringSpec]
  | cons b0 rest =>
    have hpre := prefix3_iff 83 76 78 (b0 :: rest)
    simp only [IsValidTypeString, TypeStringSpec]
    by_cases hc : ((b0 :: rest).length > 65535 || b0 < 65 || b0 > 90 ||
        (decide (3 ≤ (b0 :: rest).length) &&
          decide ((b0 :: rest).take 3 = [83, 76, 78]))) = true
    · rw [if_pos hc]
      simp only [Bool.or_eq_true, decide_eq_true_eq] at hc
      constructor
      · intro h
        exact absurd h (by simp)
      · rintro ⟨h1, h2, h3, h4, h5⟩
        exfalso
        rcases hc with ((hc | hc) | hc) | hc
        · omega
        · omega
        · omega
        · exact h5 (hpre.mp hc)
    · rw [if_neg hc]
      simp only [Bool.or_eq_true, decide_eq_true_eq, not_or] at hc
      obtain ⟨⟨⟨hl, hb1⟩, hb2⟩, hpref⟩ := hc
      have hnb : ¬BeginsWith3 83 76 78 (b0 :: rest) := fun hb =>
        hpref (hpre.mpr hb)
      rw [List.all_eq_true]
      constructor
      · intro h
        refine ⟨by omega, by omega, by omega, fun b hb => ?_, hnb⟩
        have := h b hb
        simp only [Bool.not_eq_true'] at this
        exact (byteRejected_iff b).mp this
      · rintro ⟨_, _, _, h4, _⟩
        intro b hb
        simp only [Bool.not_eq_true']
        exact (byteRejected_iff b).mpr (h4 b hb)

theorem valid_prop_name_iff (t : List Nat) :
    IsValidPropNameString t = true ↔ PropNameStringSpec t := by
  cases t with
  | nil => simp [IsValidPropNameString, PropNameStringSpec]
  | cons b0 rest =>
    have hpre := prefix3_iff 115 108 110 (b0 :: rest)
    simp only [IsValidPropNameString, PropNameStringSpec]
    by_cases hc : ((b0 :: rest).length > 65535 || b0 < 97 || b0 > 122 ||
        (decide (3 ≤ (b0 :: rest).length) &&
          decide ((b0 :: rest).take 3 = [115, 108, 110]))) = true
    · rw [if_pos hc]
      simp only [Bool.or_eq_true, decide_eq_true_eq] at hc
      constructor
      · intro h
        exact absurd h (by simp)
      · rintro ⟨h1, h2, h3, h4, h5⟩
        exfalso
        rcases hc with ((hc | hc) | hc) | hc
        · omega
        · omega
        · omega
        · exact h5 (hpre.mp hc)
    · rw [if_neg hc]
      simp only [Bool.or_eq_true, decide_eq_true_eq, not_or] at hc
      obtain ⟨⟨⟨hl, hb1⟩, hb2⟩, hpref⟩ := hc
      have hnb : ¬BeginsWith3 115 108 110 (b0 :: rest) := fun hb =>
        hpref (hpre.mpr hb)
      rw [List.all_eq_true]
      constructor
      · intro h
        refine ⟨by omega, by omega, by omega, fun b hb => ?_, hnb⟩
        have := h b hb
        simp only [Bool.not_eq_true'] at this
        exact (byteRejected_iff b).mp this
      · rintro ⟨_, _, _, h4, _⟩
        intro b hb
        simp only [Bool.not_eq_true']
        exact (byteRejected_iff b).mpr (h4 b hb)

/-- Claim C9: `IsValidTypeString` holds iff the string is non-empty, at
most 65535 bytes, begins with an uppercase ASCII letter, every remaining
byte is ASCII alphanumeric or underscore, and it does not begin with
`"SLN"`; `IsValidPropNameString` is the analogous predicate with a
lowercase first letter and reserved prefix `"sln"`.  Both are total
Boolean functions (pure, never failing). -/
theorem c9_validity_predicates :
    (∀ t : List Nat, IsValidTypeString t = true ↔ TypeStringSpec t) ∧
      ∀ t : List Nat, IsValidPropNameString t = true ↔ PropNameStringSpec t :=
  ⟨valid_type_iff, valid_prop_name_iff⟩

/-- The encoding alphabet has no repeated characters below index 64. -/
theorem encChar_inj : ∀ d1 < 64, ∀ d2 < 64, encChar d1 = encChar d2 → d1 = d2 := by
  decide

theorem serialDigits_eq (i : Nat) :
    serialDigits i = if i / 64 = 0 then [encChar (i % 64)]
      else encChar (i % 64) :: serialDigits (i / 64 - 1) := by
  rw [serialDigits]
  split
  · rfl
  · rfl

theorem serialDigits_ne_nil (i : Nat) : serialDigits i ≠ [] := by
  rw [serialDigits_eq]
  split
  · simp
  · simp

/-- The decrement-before-continue digit encoding is injective. -/
theorem serialDigits_inj : ∀ a b : Nat, serialDigits a = serialDigits b → a = b := by
  intro a
  induction a using Nat.strong_induction_on with
  | _ a ih =>
    intro b h
    rw [serialDigits_eq a, serialDigits_eq b] at h
    by_cases ha : a / 64 = 0 <;> by_cases hb : b / 64 = 0
    · rw [if_pos ha, if_pos hb] at h
      simp only [List.cons.injEq, and_true] at h
      have := encChar_inj _ (Nat.mod_lt _ (by omega)) _ (Nat.mod_lt _ (by omega)) h
      omega
    · rw [if_pos ha, if_neg hb] at h
      simp only [List.cons.injEq] at h
      exact absurd h.2.symm (serialDigits_ne_nil _)
    · rw [if_neg ha, if_pos hb] at h
      simp only [List.cons.injEq] at h
      exact absurd h.2 (serialDigits_ne_nil _)
    · rw [if_neg ha, if_neg hb] at h
      simp only [List.cons.injEq] at h
      have hmod := encChar_inj _ (Nat.mod_lt _ (by omega)) _
        (Nat.mod_lt _ (by omega)) h.1
      have hlt : a / 64 - 1 < a := by
        have := Nat.div_le_self a 64
        omega
      have htail := ih (a / 64 - 1) hlt (b / 64 - 1) h.2
      have hda := Nat.div_add_mod a 64
      have hdb := Nat.div_add_mod b 64
      omega

/-- Distinct serials give distinct ID suffixes (same date). -/
theorem idSuffix_inj (d : Date) (a b : Nat) (h : idSuffix d a = idSuffix d b) :
    a = b := by
  apply serialDigits_inj
  have hd : (idSuffix d a).data = (idSuffix d b).data := by rw [h]
  simp only [idSuffix] at hd
  simp only [String.data_append] at hd
  simpa using hd

/-- Claim C5: for a valid type, a fixed date, and distinct non-negative
serials, `NewID` yields distinct IDs, with distinct suffix strings. -/
theorem c5_serial_encoding_injective :
    ∀ (t : GoType) (d : Date) (s1 s2 : Int), t.IsValid = true →
      0 ≤ s1 → 0 ≤ s2 → s1 ≠ s2 →
      idSuffix d s1.toNat ≠ idSuffix d s2.toNat ∧
        NewID t d s1 ≠ NewID t d s2 := by
  intro t d s1 s2 ht h1 h2 hne
  have hn : s1.toNat ≠ s2.toNat := by omega
  have hsfx : idSuffix d s1.toNat ≠ idSuffix d s2.toNat := fun he =>
    hn (idSuffix_inj d s1.toNat s2.toNat he)
  refine ⟨hsfx, ?_⟩
  have hn1 : ¬s1 < 0 := by omega
  have hn2 : ¬s2 < 0 := by omega
  simp [NewID, hn1, hn2, ht]
  exact hsfx

/-- Witness for C5 at concrete inputs (serials 0 and 64, whose digit
strings `"0"` and `"00"` would collide without the decrement step). -/
theorem c5_serial_encoding_injective_witness :
    (GoType.IsValid ⟨"TestType_1"⟩ = true ∧ (0 : Int) ≤ 0 ∧ (0 : Int) ≤ 64 ∧
      (0 : Int) ≠ 64) ∧
      idSuffix ⟨2023, 71⟩ (Int.toNat 0) ≠ idSuffix ⟨2023, 71⟩ (Int.toNat 64) ∧
      NewID ⟨"TestType_1"⟩ ⟨2023, 71⟩ 0 ≠ NewID ⟨"TestType_1"⟩ ⟨2023, 71⟩ 64 :=
  ⟨⟨by decide, by decide, by decide, by decide⟩,
    c5_serial_encoding_injective ⟨"TestType_1"⟩ ⟨2023, 71⟩ 0 64 (by decide)
      (by decide) (by decide) (by decide)⟩

/-- A list containing an invalid element yields a found invalid
element. -/
theorem exists_find_invalid {α : Type} (p : α → Bool) (xs : List α)
    (h : ∃ x ∈ xs, p x = false) :
    ∃ bad, xs.find? (fun x => !p x) = some bad := by
  obtain ⟨x, hx, hpx⟩ := h
  have hs : (xs.find? fun x => !p x).isSome := by
    rw [List.find?_isSome]
    exact ⟨x, hx, by simp [hpx]⟩
  exact Option.isSome_iff_exists.mp hs

theorem isEmpty_false_of_mem {α : Type} {x : α} {xs : List α} (h : x ∈ xs) :
    xs.isEmpty = false := by
  cases xs
  · simp at h
  · rfl

/-- Claim C4: every inserting operation of a validated collection
(`Add`, `Set`, `Union`, `DisjunctiveUnion`, `SetMap`, `GetAndSetMap`,
and `GetAndSet`) validates all incoming items/keys/values before
applying any; when some element is invalid it raises the typed fault and
leaves the contents exactly as before the call; `Remove`, `Intersect`,
`Subtract`, `Clear` (and `GetAndRemove`) never raise a validation
fault. -/
theorem c4_validated_all_or_nothing :
    (∀ (α : Type) (_ : DecidableEq α) (vs : ValidSet α) (xs : List α),
      (∃ x ∈ xs, vs.validateFn x = false) →
        (vsAdd vs xs).1.isSome = true ∧ (vsAdd vs xs).2.s = vs.s) ∧
    (∀ (α : Type) (_ : DecidableEq α) (vs : ValidSet α) (xs : List α),
      (∃ x ∈ xs, vs.validateFn x = false) →
        (vsUnion vs xs).1.isSome = true ∧ (vsUnion vs xs).2.s = vs.s) ∧
    (∀ (α : Type) (_ : DecidableEq α) (vs : ValidSet α) (xs : List α),
      (∃ x ∈ xs, vs.validateFn x = false) →
        (vsDisjUnion vs xs).1.isSome = true ∧ (vsDisjUnion vs xs).2.s = vs.s) ∧
    (∀ (α : Type) (_ : DecidableEq α) (vs : ValidSet α) (xs : List α),
      (vsRemove vs xs).1 = none ∧ (vsIntersect vs xs).1 = none ∧
        (vsSubtract vs xs).1 = none ∧ (vsClear vs).1 = none) ∧
    (∀ (κ ν : Type) (_ : DecidableEq κ) (vm : ValidMap κ ν) (k : κ) (v : ν),
      (vm.keyValidateFn k = false ∨ vm.valueValidateFn v = false) →
        ((vmSet vm k v).1.isSome = true ∧ (vmSet vm k v).2.m = vm.m) ∧
          (vmGetAndSet vm k v).1.isSome = true ∧
          (vmGetAndSet vm k v).2.m = vm.m) ∧
    (∀ (κ ν : Type) (_ : DecidableEq κ) (vm : ValidMap κ ν)
      (ps : List (κ × ν)),
      (∃ e ∈ ps, vm.keyValidateFn e.1 = false ∨
          vm.valueValidateFn e.2 = false) →
        ((vmSetMap vm ps).1.isSome = true ∧ (vmSetMap vm ps).2.m = vm.m) ∧
          (vmGetAndSetMap vm ps).1.isSome = true ∧
          (vmGetAndSetMap vm ps).2.m = vm.m) ∧
    ∀ (κ ν : Type) (_ : DecidableEq κ) (vm : ValidMap κ ν) (ks : List κ)
      (k : κ),
      (vmRemove vm ks).1 = none ∧ (vmGetAndRemove vm k).1 = none ∧
        (vmClear vm).1 = none := by
  refine ⟨?_, ?_, ?_, ?_, ?_, ?_, ?_⟩
  · intro α inst vs xs h
    obtain ⟨bad, hf⟩ := exists_find_invalid vs.validateFn xs h
    simp [vsAdd, hf]
  · intro α inst vs xs h
    obtain ⟨x, hx, hpx⟩ := h
    obtain ⟨bad, hf⟩ := exists_find_invalid vs.validateFn xs ⟨x, hx, hpx⟩
    simp [vsUnion, isEmpty_false_of_mem hx, hf]
  · intro α inst vs xs h
    obtain ⟨x, hx, hpx⟩ := h
    obtain ⟨bad, hf⟩ := exists_find_invalid vs.validateFn xs ⟨x, hx, hpx⟩
    simp [vsDisjUnion, isEmpty_false_of_mem hx, hf]
  · intro α inst vs xs
    exact ⟨rfl, rfl, rfl, rfl⟩
  · intro κ ν inst vm k v h
    have hone : (vmSet vm k v).1.isSome = true ∧ (vmSet vm k v).2.m = vm.m := by
      by_cases hk : vm.keyValidateFn k = true
      · have hv : vm.valueValidateFn v = false := by
          rcases h with h | h
          · rw [hk] at h
            exact absurd h (by simp)
          · exact h
        simp [vmSet, vmValidateKV, hk, hv]
      · simp only [Bool.not_eq_true] at hk
        simp [vmSet, vmValidateKV, hk]
    refine ⟨hone, ?_, ?_⟩
    · exact hone.1
    · exact hone.2
  · intro κ ν inst vm ps h
    obtain ⟨e, he, hpe⟩ := h
    have hp : (fun e => vm.keyValidateFn e.1 && vm.valueValidateFn e.2) e
        = false := by
      rcases hpe with h | h <;> simp [h]
    obtain ⟨bad, hf⟩ := exists_find_invalid
      (fun e => vm.keyValidateFn e.1 && vm.valueValidateFn e.2) ps
      ⟨e, he, hp⟩
    have hf' : ps.find?
        (fun e => !vm.keyValidateFn e.1 || !vm.valueValidateFn e.2) =
          some bad := by
      simpa using hf
    refine ⟨⟨?_, ?_⟩, ?_, ?_⟩
    · simp [vmSetMap, isEmpty_false_of_mem he, hf']
    · simp [vmSetMap, isEmpty_false_of_mem he, hf']
    · simp [vmGetAndSetMap, isEmpty_false_of_mem he, hf']
    · simp [vmGetAndSetMap, isEmpty_false_of_mem he, hf']
  · intro κ ν inst vm ks k
    exact ⟨rfl, rfl, rfl⟩

/-- Witness for C4 at concrete inputs (`α = Nat` with validator
`x < 10`; the batch `[3, 100]` contains the invalid item 100). -/
theorem c4_validated_all_or_nothing_witness :
    (∃ x ∈ [3, 100], (fun n : Nat => n < 10 : Nat → Bool) x = false) ∧
      ((vsAdd ⟨[1, 2], fun n : Nat => n < 10⟩ [3, 100]).1.isSome = true ∧
        (vsAdd ⟨[1, 2], fun n : Nat => n < 10⟩ [3, 100]).2.s = [1, 2]) ∧
      ((fun n : Nat => n < 10 : Nat → Bool) 100 = false ∨
        (fun n : Nat => n = 0 : Nat → Bool) 7 = false) ∧
      ((vmSet ⟨[(1, 5)], fun n : Nat => n < 10, fun n : Nat => n = 0⟩ 100
          7).1.isSome = true ∧
        (vmSet ⟨[(1, 5)], fun n : Nat => n < 10, fun n : Nat => n = 0⟩ 100
          7).2.m = [(1, 5)]) :=
  ⟨⟨100, by decide, by decide⟩,
    c4_validated_all_or_nothing.1 Nat inferInstance
      ⟨[1, 2], fun n : Nat => n < 10⟩ [3, 100] ⟨100, by decide, by decide⟩,
    Or.inl (by decide),
    ((c4_validated_all_or_nothing.2.2.2.2.1 Nat Nat inferInstance
        ⟨[(1, 5)], fun n : Nat => n < 10, fun n : Nat => n = 0⟩ 100 7
        (Or.inl (by decide))).1)⟩

/-- Claim C10: when `valueValidateFn` is nil and the value type has an
`IsValid() bool` method, `newValidMap` substitutes a validator that
evaluates `IsValid` on the captured zero value and ignores its argument.
Consequently whether `Set`/`GetAndSet` raise the value fault does not
depend on the value passed: every call (with a passing key) raises it
when the zero value is invalid, and no call ever rejects a value when
the zero value is valid; the key fallback, by contrast, validates the
actual key argument. -/
theorem c10_value_fallback_ignores_argument :
    ∀ (κ ν : Type) (_ : DecidableEq κ) (kM : κ → Bool) (vM : ν → Bool)
      (zV : ν),
      newValidMap none (some kM) none (some vM) zV =
          some ⟨[], fun key => kM key, fun _ => vM zV⟩ ∧
        ∀ (m : List (κ × ν)) (k : κ) (v v' : ν),
          isValueFault (vmSet ⟨m, fun key => kM key, fun _ => vM zV⟩ k v).1 =
              isValueFault
                (vmSet ⟨m, fun key => kM key, fun _ => vM zV⟩ k v').1 ∧
            (vM zV = false → kM k = true →
              isValueFault
                (vmSet ⟨m, fun key => kM key, fun _ => vM zV⟩ k v).1 =
                  true) ∧
            (vM zV = true →
              isValueFault
                (vmSet ⟨m, fun key => kM key, fun _ => vM zV⟩ k v).1 =
                  false) ∧
            isKeyFault (vmSet ⟨m, fun key => kM key, fun _ => vM zV⟩ k v).1 =
              !kM k ∧
            vmGetAndSet ⟨m, fun key => kM key, fun _ => vM zV⟩ k v =
              vmSet ⟨m, fun key => kM key, fun _ => vM zV⟩ k v := by
  intro κ ν inst kM vM zV
  refine ⟨rfl, ?_⟩
  intro m k v v'
  have hval : ∀ w : ν,
      isValueFault (vmSet ⟨m, fun key => kM key, fun _ => vM zV⟩ k w).1 =
        (kM k && !vM zV) := by
    intro w
    by_cases hk : kM k = true
    · by_cases hz : vM zV = true
      · simp [vmSet, vmValidateKV, hk, hz, isValueFault]
      · simp only [Bool.not_eq_true] at hz
        simp [vmSet, vmValidateKV, hk, hz, isValueFault]
    · simp only [Bool.not_eq_true] at hk
      simp [vmSet, vmValidateKV, hk, isValueFault]
  have hkey :
      isKeyFault (vmSet ⟨m, fun key => kM key, fun _ => vM zV⟩ k v).1 =
        !kM k := by
    by_cases hk : kM k = true
    · by_cases hz : vM zV = true
      · simp [vmSet, vmValidateKV, hk, hz, isKeyFault]
      · simp only [Bool.not_eq_true] at hz
        simp [vmSet, vmValidateKV, hk, hz, isKeyFault]
    · simp only [Bool.not_eq_true] at hk
      simp [vmSet, vmValidateKV, hk, isKeyFault]
  refine ⟨by rw [hval v, hval v'], ?_, ?_, hkey, rfl⟩
  · intro h hk
    rw [hval v, h, hk]
    rfl
  · intro h
    rw [hval v, h]
    simp

/-- Witness for C10 at concrete inputs (`ν = Nat`, method `n != 0`,
zero value 0, so the substituted validator is constantly false and the
call `Set 5 7` raises the value fault although `7` passes the method). -/
theorem c10_value_fallback_ignores_argument_witness :
    ((fun n : Nat => n != 0) 0 = false ∧ (fun n : Nat => n < 10 : Nat → Bool) 5 = true) ∧
      isValueFault
        (vmSet ⟨([] : List (Nat × Nat)), fun key : Nat => (fun n : Nat => n < 10) key,
          fun _ : Nat => (fun n : Nat => n != 0) 0⟩ 5 7).1 = true :=
  ⟨⟨by decide, by decide⟩,
    ((c10_value_fallback_ignores_argument Nat Nat inferInstance
        (fun n : Nat => n < 10) (fun n : Nat => n != 0) 0).2 [] 5 7
        7).2.1 (by decide) (by decide)⟩

theorem mem_listInsert [DecidableEq α] (s : List α) (y x : α) :
    x ∈ listInsert s y ↔ x ∈ s ∨ x = y := by
  by_cases hy : y ∈ s
  · simp only [listInsert, hy, if_true]
    exact ⟨Or.inl, fun h => h.elim id fun hxy => hxy ▸ hy⟩
  · simp [listInsert, hy]

theorem mem_listAddAll [DecidableEq α] (s ks : List α) (x : α) :
    x ∈ listAddAll s ks ↔ x ∈ s ∨ x ∈ ks := by
  induction ks generalizing s with
  | nil => simp [listAddAll]
  | cons k rest ih =>
    have he : listAddAll s (k :: rest) = listAddAll (listInsert s k) rest := rfl
    rw [he, ih, mem_listInsert]
    simp
    tauto

theorem mem_listRemoveAll [DecidableEq α] (s ks : List α) (x : α) :
    x ∈ listRemoveAll s ks ↔ x ∈ s ∧ x ∉ ks := by
  simp [listRemoveAll, List.mem_filter]

theorem mem_listToggle [DecidableEq α] (s : List α) (y x : α)
    (h : x ∈ listToggle s y) : x ∈ s ∨ x = y := by
  by_cases hy : y ∈ s
  · simp only [listToggle, hy, if_true] at h
    exact Or.inl (List.mem_of_mem_filter h)
  · simp only [listToggle, hy, if_false, List.mem_append,
      List.mem_singleton] at h
    exact h

theorem mem_listToggleAll [DecidableEq α] (s ks : List α) (x : α)
    (h : x ∈ listToggleAll s ks) : x ∈ s ∨ x ∈ ks := by
  induction ks generalizing s with
  | nil => simpa [listToggleAll] using h
  | cons k rest ih =>
    have he : listToggleAll s (k :: rest) =
        listToggleAll (listToggle s k) rest := rfl
    rw [he] at h
    rcases ih (listToggle s k) h with h1 | h1
    · rcases mem_listToggle s k x h1 with h2 | h2
      · exact Or.inl h2
      · exact Or.inr (by simp [h2])
    · exact Or.inr (by simp [h1])

theorem mem_listIntersect [DecidableEq α] (s ks : List α) (x : α)
    (h : x ∈ listIntersect s ks) : x ∈ s :=
  List.mem_of_mem_filter h

theorem pmKeys_pmStore (m : PMap) (k : PropName) (v : PropVal) (x : PropName) :
    x ∈ pmKeys (pmStore m k v) ↔ x ∈ pmKeys m ∨ x = k := by
  by_cases hk : (m.any fun e => e.1 == k) = true
  · simp only [pmStore, hk, if_true]
    have hkeys : pmKeys (m.map fun e => if e.1 = k then (e.1, v) else e) =
        pmKeys m := by
      simp only [pmKeys, List.map_map]
      congr 1
      funext e
      by_cases he : e.1 = k <;> simp [he]
    rw [hkeys]
    have hmem : k ∈ pmKeys m := by
      rw [List.any_eq_true] at hk
      obtain ⟨e, he, heq⟩ := hk
      simp only [beq_iff_eq] at heq
      exact List.mem_map.mpr ⟨e, he, heq⟩
    exact ⟨Or.inl, fun h => h.elim id fun hxk => hxk ▸ hmem⟩
  · simp [pmStore, hk, pmKeys]

theorem pmKeys_pmStoreAll (m ps : PMap) (x : PropName)
    (h : x ∈ pmKeys (pmStoreAll m ps)) : x ∈ pmKeys m ∨ x ∈ pmKeys ps := by
  induction ps generalizing m with
  | nil => exact Or.inl (by simpa [pmStoreAll] using h)
  | cons e rest ih =>
    have he : pmStoreAll m (e :: rest) = pmStoreAll (pmStore m e.1 e.2) rest :=
      rfl
    rw [he] at h
    rcases ih (pmStore m e.1 e.2) h with h1 | h1
    · rcases (pmKeys_pmStore m e.1 e.2 x).mp h1 with h2 | h2
      · exact Or.inl h2
      · exact Or.inr (by simp [pmKeys, h2])
    · refine Or.inr ?_
      simp only [pmKeys, List.map_cons, List.mem_cons] at h1 ⊢
      exact Or.inr h1

theorem pmKeys_pmRemoveAll (m : PMap) (ks : List PropName) (x : PropName) :
    x ∈ pmKeys (pmRemoveAll m ks) ↔ x ∈ pmKeys m ∧ x ∉ ks := by
  simp only [pmKeys, pmRemoveAll, List.mem_map, List.mem_filter]
  constructor
  · rintro ⟨e, ⟨he, hnk⟩, hx⟩
    simp only [Bool.not_eq_true', decide_eq_false_iff_not] at hnk
    exact ⟨⟨e, he, hx⟩, hx ▸ hnk⟩
  · rintro ⟨⟨e, he, hx⟩, hnk⟩
    refine ⟨e, ⟨he, ?_⟩, hx⟩
    simp only [Bool.not_eq_true', decide_eq_false_iff_not]
    exact hx ▸ hnk

theorem pmKeys_filter (m : PMap) (p : PropName → PropVal → Bool) (x : PropName)
    (h : x ∈ pmKeys (m.filter fun e => p e.1 e.2)) : x ∈ pmKeys m := by
  simp only [pmKeys, List.mem_map] at h ⊢
  obtain ⟨e, he, hx⟩ := h
  exact ⟨e, List.mem_of_mem_filter he, hx⟩

/-- Membership in the inserted-keys list of `DisjunctiveUnion`. -/
theorem mem_filter_mem [DecidableEq α] (ks s : List α) (x : α) :
    x ∈ ks.filter (fun k => decide (k ∈ s)) ↔ x ∈ ks ∧ x ∈ s := by
  simp [List.mem_filter]

/-- Disjointness is preserved by componentwise shrinking. -/
theorem clauseDisj_mono (st st' : ClauseState)
    (hE : ∀ x, x ∈ pmKeys st'.equal → x ∈ pmKeys st.equal)
    (hP : ∀ x, x ∈ st'.present → x ∈ st.present)
    (hA : ∀ x, x ∈ st'.absent → x ∈ st.absent)
    (h : ClauseDisj st) : ClauseDisj st' := by
  obtain ⟨h1, h2⟩ := h
  refine ⟨fun x hx => ?_, fun x hx => ?_⟩
  · obtain ⟨hp, ha⟩ := h1 x (hE x hx)
    exact ⟨fun hc => hp (hP x hc), fun hc => ha (hA x hc)⟩
  · exact fun hc => h2 x (hP x hx) (hA x hc)

theorem disj_eqSet (st : ClauseState) (k : PropName) (v : PropVal)
    (h : ClauseDisj st) : ClauseDisj (eqSet st k v) := by
  obtain ⟨h1, h2⟩ := h
  rw [eqSet]
  split
  · refine ⟨fun x hx => ?_, fun x hx => ?_⟩
    · replace hx : x ∈ pmKeys (pmStore st.equal k v) := hx
      constructor
      · show x ∉ listRemoveAll st.present [k]
        rw [mem_listRemoveAll]
        rintro ⟨hp, hnk⟩
        rcases (pmKeys_pmStore st.equal k v x).mp hx with he | he
        · exact (h1 x he).1 hp
        · exact hnk (by simp [he])
      · show x ∉ listRemoveAll st.absent [k]
        rw [mem_listRemoveAll]
        rintro ⟨hp, hnk⟩
        rcases (pmKeys_pmStore st.equal k v x).mp hx with he | he
        · exact (h1 x he).2 hp
        · exact hnk (by simp [he])
    · replace hx : x ∈ listRemoveAll st.present [k] := hx
      rw [mem_listRemoveAll] at hx
      show x ∉ listRemoveAll st.absent [k]
      rw [mem_listRemoveAll]
      rintro ⟨ha, _⟩
      exact h2 x hx.1 ha
  · exact ⟨h1, h2⟩

theorem disj_eqSetMap (st : ClauseState) (ps : PMap) (h : ClauseDisj st) :
    ClauseDisj (eqSetMap st ps) := by
  obtain ⟨h1, h2⟩ := h
  rw [eqSetMap]
  split
  · exact ⟨h1, h2⟩
  split
  · refine ⟨fun x hx => ?_, fun x hx => ?_⟩
    · replace hx : x ∈ pmKeys (pmStoreAll st.equal ps) := hx
      constructor
      · show x ∉ listRemoveAll st.present (pmKeys ps)
        rw [mem_listRemoveAll]
        rintro ⟨hp, hnk⟩
        rcases pmKeys_pmStoreAll st.equal ps x hx with he | he
        · exact (h1 x he).1 hp
        · exact hnk he
      · show x ∉ listRemoveAll st.absent (pmKeys ps)
        rw [mem_listRemoveAll]
        rintro ⟨hp, hnk⟩
        rcases pmKeys_pmStoreAll st.equal ps x hx with he | he
        · exact (h1 x he).2 hp
        · exact hnk he
    · replace hx : x ∈ listRemoveAll st.present (pmKeys ps) := hx
      rw [mem_listRemoveAll] at hx
      show x ∉ listRemoveAll st.absent (pmKeys ps)
      rw [mem_listRemoveAll]
      rintro ⟨ha, _⟩
      exact h2 x hx.1 ha
  · exact ⟨h1, h2⟩

theorem disj_presAdd (st : ClauseState) (ks : List PropName)
    (h : ClauseDisj st) : ClauseDisj (presAdd st ks) := by
  obtain ⟨h1, h2⟩ := h
  rw [presAdd]
  split
  · refine ⟨fun x hx => ?_, fun x hx => ?_⟩
    · replace hx : x ∈ pmKeys (pmRemoveAll st.equal ks) := hx
      rw [pmKeys_pmRemoveAll] at hx
      obtain ⟨he, hnk⟩ := hx
      constructor
      · show x ∉ listAddAll st.present ks
        rw [mem_listAddAll]
        rintro (hp | hk)
        · exact (h1 x he).1 hp
        · exact hnk hk
      · show x ∉ listRemoveAll st.absent ks
        rw [mem_listRemoveAll]
        rintro ⟨ha, _⟩
        exact (h1 x he).2 ha
    · replace hx : x ∈ listAddAll st.present ks := hx
      rw [mem_listAddAll] at hx
      show x ∉ listRemoveAll st.absent ks
      rw [mem_listRemoveAll]
      rintro ⟨ha, hnk⟩
      rcases hx with hp | hk
      · exact h2 x hp ha
      · exact hnk hk
  · exact ⟨h1, h2⟩

theorem disj_presDisjUnion (st : ClauseState) (ks : List PropName)
    (h : ClauseDisj st) : ClauseDisj (presDisjUnion st ks) := by
  obtain ⟨h1, h2⟩ := h
  rw [presDisjUnion]
  split
  · exact ⟨h1, h2⟩
  split
  · refine ⟨fun x hx => ?_, fun x hx => ?_⟩
    · replace hx : x ∈ pmKeys (pmRemoveAll st.equal
        (ks.filter fun k => decide (k ∈ listToggleAll st.present ks))) := hx
      rw [pmKeys_pmRemoveAll] at hx
      obtain ⟨he, hni⟩ := hx
      constructor
      · show x ∉ listToggleAll st.present ks
        intro hs
        rcases mem_listToggleAll st.present ks x hs with hp | hk
        · exact (h1 x he).1 hp
        · exact hni ((mem_filter_mem ks _ x).mpr ⟨hk, hs⟩)
      · show x ∉ listRemoveAll st.absent
          (ks.filter fun k => decide (k ∈ listToggleAll st.present ks))
        rw [mem_listRemoveAll]
        rintro ⟨ha, _⟩
        exact (h1 x he).2 ha
    · replace hx : x ∈ listToggleAll st.present ks := hx
      show x ∉ listRemoveAll st.absent
        (ks.filter fun k => decide (k ∈ listToggleAll st.present ks))
      rw [mem_listRemoveAll]
      rintro ⟨ha, hni⟩
      rcases mem_listToggleAll st.present ks x hx with hp | hk
      · exact h2 x hp ha
      · exact hni ((mem_filter_mem ks _ x).mpr ⟨hk, hx⟩)
  · exact ⟨h1, h2⟩

theorem disj_absAdd (st : ClauseState) (ks : List PropName)
    (h : ClauseDisj st) : ClauseDisj (absAdd st ks) := by
  obtain ⟨h1, h2⟩ := h
  rw [absAdd]
  split
  · refine ⟨fun x hx => ?_, fun x hx => ?_⟩
    · replace hx : x ∈ pmKeys (pmRemoveAll st.equal ks) := hx
      rw [pmKeys_pmRemoveAll] at hx
      obtain ⟨he, hnk⟩ := hx
      constructor
      · show x ∉ listRemoveAll st.present ks
        rw [mem_listRemoveAll]
        rintro ⟨hp, _⟩
        exact (h1 x he).1 hp
      · show x ∉ listAddAll st.absent ks
        rw [mem_listAddAll]
        rintro (ha | hk)
        · exact (h1 x he).2 ha
        · exact hnk hk
    · replace hx : x ∈ listRemoveAll st.present ks := hx
      rw [mem_listRemoveAll] at hx
      show x ∉ listAddAll st.absent ks
      rw [mem_listAddAll]
      rintro (ha | hk)
      · exact h2 x hx.1 ha
      · exact hx.2 hk
  · exact ⟨h1, h2⟩

theorem disj_absDisjUnion (st : ClauseState) (ks : List PropName)
    (h : ClauseDisj st) : ClauseDisj (absDisjUnion st ks) := by
  obtain ⟨h1, h2⟩ := h
  rw [absDisjUnion]
  split
  · exact ⟨h1, h2⟩
  split
  · refine ⟨fun x hx => ?_, fun x hx => ?_⟩
    · replace hx : x ∈ pmKeys (pmRemoveAll st.equal
        (ks.filter fun k => decide (k ∈ listToggleAll st.absent ks))) := hx
      rw [pmKeys_pmRemoveAll] at hx
      obtain ⟨he, hni⟩ := hx
      constructor
      · show x ∉ listRemoveAll st.present
          (ks.filter fun k => decide (k ∈ listToggleAll st.absent ks))
        rw [mem_listRemoveAll]
        rintro ⟨hp, _⟩
        exact (h1 x he).1 hp
      · show x ∉ listToggleAll st.absent ks
        intro hs
        rcases mem_listToggleAll st.absent ks x hs with ha | hk
        · exact (h1 x he).2 ha
        · exact hni ((mem_filter_mem ks _ x).mpr ⟨hk, hs⟩)
    · replace hx : x ∈ listRemoveAll st.present
        (ks.filter fun k => decide (k ∈ listToggleAll st.absent ks)) := hx
      rw [mem_listRemoveAll] at hx
      obtain ⟨hp, hni⟩ := hx
      show x ∉ listToggleAll st.absent ks
      intro hs
      rcases mem_listToggleAll st.absent ks x hs with ha | hk
      · exact h2 x hp ha
      · exact hni ((mem_filter_mem ks _ x).mpr ⟨hk, hs⟩)
  · exact ⟨h1, h2⟩

theorem clauseDisj_step (st : ClauseState) (op : ClauseOp)
    (h : ClauseDisj st) : ClauseDisj (applyClauseOp st op) := by
  cases op with
  | eqSet k v => exact disj_eqSet st k v h
  | eqSetMap ps => exact disj_eqSetMap st ps h
  | eqRemove ks =>
    exact clauseDisj_mono st _
      (fun x hx => ((pmKeys_pmRemoveAll st.equal ks x).mp hx).1)
      (fun x hx => hx) (fun x hx => hx) h
  | eqFilter p =>
    exact clauseDisj_mono st _ (fun x hx => pmKeys_filter st.equal p x hx)
      (fun x hx => hx) (fun x hx => hx) h
  | eqClear =>
    refine clauseDisj_mono st _ (fun x hx => ?_) (fun x hx => hx)
      (fun x hx => hx) h
    replace hx : x ∈ pmKeys ([] : PMap) := hx
    simp [pmKeys] at hx
  | presAdd ks => exact disj_presAdd st ks h
  | presUnion ks =>
    show ClauseDisj (presUnion st ks)
    rw [presUnion]
    split
    · exact h
    · exact disj_presAdd st ks h
  | presDisjUnion ks => exact disj_presDisjUnion st ks h
  | presRemove ks =>
    exact clauseDisj_mono st _ (fun x hx => hx)
      (fun x hx => ((mem_listRemoveAll st.present ks x).mp hx).1)
      (fun x hx => hx) h
  | presIntersect ks =>
    exact clauseDisj_mono st _ (fun x hx => hx)
      (fun x hx => mem_listIntersect st.present ks x hx)
      (fun x hx => hx) h
  | presFilter p =>
    exact clauseDisj_mono st _ (fun x hx => hx)
      (fun x hx => List.mem_of_mem_filter hx) (fun x hx => hx) h
  | presClear =>
    refine clauseDisj_mono st _ (fun x hx => hx) (fun x hx => ?_)
      (fun x hx => hx) h
    replace hx : x ∈ ([] : List PropName) := hx
    simp at hx
  | absAdd ks => exact disj_absAdd st ks h
  | absUnion ks =>
    show ClauseDisj (absUnion st ks)
    rw [absUnion]
    split
    · exact h
    · exact disj_absAdd st ks h
  | absDisjUnion ks => exact disj_absDisjUnion st ks h
  | absRemove ks =>
    exact clauseDisj_mono st _ (fun x hx => hx) (fun x hx => hx)
      (fun x hx => ((mem_listRemoveAll st.absent ks x).mp hx).1) h
  | absIntersect ks =>
    exact clauseDisj_mono st _ (fun x hx => hx) (fun x hx => hx)
      (fun x hx => mem_listIntersect st.absent ks x hx) h
  | absFilter p =>
    exact clauseDisj_mono st _ (fun x hx => hx) (fun x hx => hx)
      (fun x hx => List.mem_of_mem_filter hx) h
  | absClear =>
    refine clauseDisj_mono st _ (fun x hx => hx) (fun x hx => hx)
      (fun x hx => ?_) h
    replace hx : x ∈ ([] : List PropName) := hx
    simp at hx

theorem argDisj_mono (st st' : ArgState)
    (hM : ∀ x, x ∈ pmKeys st'.toBeSet → x ∈ pmKeys st.toBeSet)
    (hR : ∀ x, x ∈ st'.toBeRemoved → x ∈ st.toBeRemoved)
    (h : ArgDisj st) : ArgDisj st' :=
  fun x hx hr => h x (hM x hx) (hR x hr)

theorem disj_argSet (st : ArgState) (k : PropName) (v : PropVal)
    (h : ArgDisj st) : ArgDisj (argSet st k v) := by
  rw [argSet]
  split
  · intro x hx hr
    replace hx : x ∈ pmKeys (pmStore st.toBeSet k v) := hx
    replace hr : x ∈ listRemoveAll st.toBeRemoved [k] := hr
    rw [mem_listRemoveAll] at hr
    rcases (pmKeys_pmStore st.toBeSet k v x).mp hx with he | he
    · exact h x he hr.1
    · exact hr.2 (by simp [he])
  · exact h

theorem disj_argSetMap (st : ArgState) (ps : PMap) (h : ArgDisj st) :
    ArgDisj (argSetMap st ps) := by
  rw [argSetMap]
  split
  · exact h
  split
  · intro x hx hr
    replace hx : x ∈ pmKeys (pmStoreAll st.toBeSet ps) := hx
    replace hr : x ∈ listRemoveAll st.toBeRemoved (pmKeys ps) := hr
    rw [mem_listRemoveAll] at hr
    rcases pmKeys_pmStoreAll st.toBeSet ps x hx with he | he
    · exact h x he hr.1
    · exact hr.2 he
  · exact h

theorem disj_argAdd (st : ArgState) (ks : List PropName) (h : ArgDisj st) :
    ArgDisj (argAdd st ks) := by
  rw [argAdd]
  split
  · intro x hx hr
    replace hx : x ∈ pmKeys (pmRemoveAll st.toBeSet ks) := hx
    replace hr : x ∈ listAddAll st.toBeRemoved ks := hr
    rw [pmKeys_pmRemoveAll] at hx
    rw [mem_listAddAll] at hr
    rcases hr with hr | hr
    · exact h x hx.1 hr
    · exact hx.2 hr
  · exact h

theorem disj_argDisjUnion (st : ArgState) (ks : List PropName)
    (h : ArgDisj st) : ArgDisj (argDisjUnion st ks) := by
  rw [argDisjUnion]
  split
  · exact h
  split
  · intro x hx hr
    replace hx : x ∈ pmKeys (pmRemoveAll st.toBeSet
      (ks.filter fun k => decide (k ∈ listToggleAll st.toBeRemoved ks))) := hx
    replace hr : x ∈ listToggleAll st.toBeRemoved ks := hr
    rw [pmKeys_pmRemoveAll] at hx
    rcases mem_listToggleAll st.toBeRemoved ks x hr with h1 | h1
    · exact h x hx.1 h1
    · exact hx.2 ((mem_filter_mem ks _ x).mpr ⟨h1, hr⟩)
  · exact h

theorem argDisj_step (st : ArgState) (op : ArgOp) (h : ArgDisj st) :
    ArgDisj (applyArgOp st op) := by
  cases op with
  | set k v => exact disj_argSet st k v h
  | setMap ps => exact disj_argSetMap st ps h
  | mapRemove ks =>
    exact argDisj_mono st _
      (fun x hx => ((pmKeys_pmRemoveAll st.toBeSet ks x).mp hx).1)
      (fun x hx => hx) h
  | mapFilter p =>
    exact argDisj_mono st _ (fun x hx => pmKeys_filter st.toBeSet p x hx)
      (fun x hx => hx) h
  | mapClear =>
    refine argDisj_mono st _ (fun x hx => ?_) (fun x hx => hx) h
    replace hx : x ∈ pmKeys ([] : PMap) := hx
    simp [pmKeys] at hx
  | add ks => exact disj_argAdd st ks h
  | union ks =>
    show ArgDisj (argUnion st ks)
    rw [argUnion]
    split
    · exact h
    · exact disj_argAdd st ks h
  | disjUnion ks => exact disj_argDisjUnion st ks h
  | setRemove ks =>
    exact argDisj_mono st _ (fun x hx => hx)
      (fun x hx => ((mem_listRemoveAll st.toBeRemoved ks x).mp hx).1) h
  | setIntersect ks =>
    exact argDisj_mono st _ (fun x hx => hx)
      (fun x hx => mem_listIntersect st.toBeRemoved ks x hx) h
  | setFilter p =>
    exact argDisj_mono st _ (fun x hx => hx)
      (fun x hx => List.mem_of_mem_filter hx) h
  | setClear =>
    refine argDisj_mono st _ (fun x hx => hx) (fun x hx => ?_) h
    replace hx : x ∈ ([] : List PropName) := hx
    simp at hx

theorem clauseDisj_fold (ops : List ClauseOp) (st : ClauseState)
    (h : ClauseDisj st) : ClauseDisj (applyClauseOps ops st) := by
  induction ops generalizing st with
  | nil => exact h
  | cons op rest ih => exact ih (applyClauseOp st op) (clauseDisj_step st op h)

theorem argDisj_fold (ops : List ArgOp) (st : ArgState) (h : ArgDisj st) :
    ArgDisj (applyArgOps ops st) := by
  induction ops generalizing st with
  | nil => exact h
  | cons op rest ih => exact ih (applyArgOp st op) (argDisj_step st op h)

/-- Claim C3: for the sibling families built by `NewPropMatchClause`
(`Equal`/`Present`/`Absent`) and `NewPropMutateArg`
(`ToBeSet`/`ToBeRemoved`), after any sequence of public mutating
operations, in any order, each property name occurs in at most one
sibling: every successful insertion removes the inserted names from all
registered siblings. -/
theorem c3_mutual_exclusion_invariant :
    (∀ ops : List ClauseOp, ClauseDisj (applyClauseOps ops initClause)) ∧
      ∀ ops : List ArgOp, ArgDisj (applyArgOps ops initArg) := by
  constructor
  · intro ops
    refine clauseDisj_fold ops initClause ⟨fun x hx => ?_, fun x hx => ?_⟩
    · replace hx : x ∈ pmKeys ([] : PMap) := hx
      simp [pmKeys] at hx
    · replace hx : x ∈ ([] : List PropName) := hx
      simp at hx
  · intro ops
    refine argDisj_fold ops initArg fun x hx => ?_
    replace hx : x ∈ pmKeys ([] : PMap) := hx
    simp [pmKeys] at hx
